import Mathlib

/-!
Formal model of the odds-edge value-betting tool.

This file shallowly embeds the core of the repository in Lean 4:

* `src/core/odds_converter.py` — American-odds conversion and vig removal;
* `src/core/fee_calculator.py` — the Kalshi fee model;
* `src/models/opportunity.py`  — `EdgeCalculation.calculate`;
* `src/core/event_matcher.py`  — team-name normalization tables and the
  event/market matcher;
* `src/core/value_finder.py`   — consensus building and the edge pipeline;
* `src/config/settings.py`     — the numeric configuration constants.

Python floats are modelled by exact rationals (`ℚ`), Python ints by `ℤ`/`ℕ`,
Python strings by `String` compared and transformed through structurally
recursive helpers on `List Char` (the core `String` functions use
well-founded recursion and do not reduce in the kernel). `raise ValueError`
is modelled by `Except String`. Python `dict` literals and comprehensions
keep the last value bound to a duplicated key and iterate in insertion
order; the corresponding association-list helpers below mirror both facts.

The external `rapidfuzz` scoring functions (`fuzz.partial_ratio`,
`fuzz.ratio`) are not part of the repository; the matcher is parameterized
by two deterministic scoring functions `pr` and `fr` standing for them.
-/

namespace OddsEdge

/-- Decidable equality for `Except`, used to evaluate the model on
concrete inputs. -/
instance {ε α : Type} [DecidableEq ε] [DecidableEq α] : DecidableEq (Except ε α) := fun a b =>
match a, b with
| .error e, .error f =>
  if h : e = f then .isTrue (by rw [h]) else .isFalse (fun hc => h (Except.error.inj hc))
| .error _, .ok _ => .isFalse (fun hc => Except.noConfusion hc)
| .ok _, .error _ => .isFalse (fun hc => Except.noConfusion hc)
| .ok x, .ok y =>
  if h : x = y then .isTrue (by rw [h]) else .isFalse (fun hc => h (Except.ok.inj hc))

/-! ### Python string primitives (structural recursion on `List Char`) -/

/-- Python `needle in hay` on character lists (`"" in s` is `True`). -/
def pyInAux (needle : List Char) : List Char → Bool
| [] => needle.isEmpty
| c :: rest => needle.isPrefixOf (c :: rest) || pyInAux needle rest

/-- Python substring test `needle in hay`. -/
def py_contains (hay needle : String) : Bool :=
pyInAux needle.toList hay.toList

/-- ASCII lower-casing of one character, as Python `str.lower` acts on the
ASCII team names and titles this program handles. -/
def pyLowerChar (c : Char) : Char :=
if 65 ≤ c.toNat ∧ c.toNat ≤ 90 then Char.ofNat (c.toNat + 32) else c

/-- Python `s.lower()` (ASCII fragment). -/
def py_lower (s : String) : String :=
⟨s.toList.map pyLowerChar⟩

/-- Drop leading space characters. -/
def dropLeadingSpaces : List Char → List Char
| [] => []
| c :: rest => if c = ' ' then dropLeadingSpaces rest else c :: rest

/-- Python `s.strip()` for the space-separated names this program handles. -/
def py_strip (s : String) : String :=
⟨(dropLeadingSpaces (dropLeadingSpaces s.toList).reverse).reverse⟩

/-- Python `s.startswith(p)`. -/
def py_starts_with (s p : String) : Bool :=
p.toList.isPrefixOf s.toList

/-- Python `s.endswith(p)`. -/
def py_ends_with (s p : String) : Bool :=
p.toList.isSuffixOf s.toList

/-- Worker for `py_split_ws`: split on runs of spaces, dropping empties;
`acc` holds the current word reversed. -/
def splitWsAux : List Char → List Char → List (List Char)
| [], acc => if acc.isEmpty then [] else [acc.reverse]
| c :: rest, acc =>
  if c = ' ' then
    if acc.isEmpty then splitWsAux rest [] else acc.reverse :: splitWsAux rest []
  else splitWsAux rest (c :: acc)

/-- Python `s.split()` (whitespace split, no empty fields). -/
def py_split_ws (s : String) : List String :=
(splitWsAux s.toList []).map fun l => ⟨l⟩

/-- Python `' '.join(parts)`. -/
def py_join_space (parts : List String) : String :=
⟨List.intercalate [' '] (parts.map String.toList)⟩

/-- Fueled worker for `py_replace`; the fuel bounds the number of consumed
characters, so plain structural recursion suffices. -/
def replaceAux (old new : List Char) : ℕ → List Char → List Char
| 0, s => s
| _ + 1, [] => []
| fuel + 1, c :: rest =>
  if !old.isEmpty && old.isPrefixOf (c :: rest) then
    new ++ replaceAux old new fuel ((c :: rest).drop old.length)
  else
    c :: replaceAux old new fuel rest

/-- Python `s.replace(old, new)` (for the non-empty `old` patterns the
source uses). -/
def py_replace (s old new : String) : String :=
⟨replaceAux old.toList new.toList s.toList.length s.toList⟩

/-! ### `src/core/odds_converter.py` -/

/-- `american_to_implied_prob`: positive odds v ↦ 100/(v+100), otherwise
|v|/(|v|+100). -/
def american_to_implied_prob (american_odds : ℤ) : ℚ :=
if american_odds > 0 then
  100 / ((american_odds : ℚ) + 100)
else
  |(american_odds : ℚ)| / (|(american_odds : ℚ)| + 100)

/-- `remove_vig`: proportional normalization of the two implied
probabilities; raises `ValueError` when the sum is not positive. -/
def remove_vig (prob_a prob_b : ℚ) : Except String (ℚ × ℚ) :=
let total := prob_a + prob_b
if total ≤ 0 then
  .error "Sum of probabilities must be positive"
else
  .ok (prob_a / total, prob_b / total)

/-! ### `src/config/settings.py` (the analysis and fee constants) -/

def MIN_NET_EDGE : ℚ := 0.02

def MIN_BOOKMAKERS : ℕ := 3

def KALSHI_TAKER_FEE_MULTIPLIER : ℚ := 0.07

def KALSHI_MAKER_FEE_MULTIPLIER : ℚ := 0.0175

/-! ### `src/core/fee_calculator.py` -/

/-- `calculate_kalshi_fee`: domain-checks the price and contract count,
then rounds `multiplier * contracts * price * (1 - price)` up to the next
cent. Python `math.ceil` on the exact rational value is `Rat.ceil`. -/
def calculate_kalshi_fee (price : ℚ) (num_contracts : ℤ) (is_maker : Bool) :
    Except String ℚ :=
if price ≤ 0 ∨ price ≥ 1 then
  .error "Price must be between 0 and 1 exclusive"
else if num_contracts ≤ 0 then
  .error "Number of contracts must be positive"
else
  let multiplier := if is_maker then KALSHI_MAKER_FEE_MULTIPLIER else KALSHI_TAKER_FEE_MULTIPLIER
  let raw_fee := multiplier * (num_contracts : ℚ) * price * (1 - price)
  .ok (((raw_fee * 100).ceil : ℚ) / 100)

/-- `calculate_effective_cost`: total cost of the trade including fees. -/
def calculate_effective_cost (price : ℚ) (num_contracts : ℤ) (is_maker : Bool) :
    Except String ℚ := do
let fee ← calculate_kalshi_fee price num_contracts is_maker
return price * (num_contracts : ℚ) + fee

/-! ### `src/models/opportunity.py` -/

/-- `EdgeCalculation`: detailed edge calculation results. -/
structure EdgeCalculation where
  position : String
  kalshi_price : ℚ
  vegas_prob : ℚ
  fee_per_contract : ℚ
  effective_cost : ℚ
  gross_edge : ℚ
  net_edge : ℚ
  expected_value_per_contract : ℚ
  total_expected_value : ℚ
  is_value_bet : Bool
  deriving Repr, DecidableEq

/-- `EdgeCalculation.calculate`: edge for a YES or NO position at a Kalshi
price against the Vegas consensus probability. -/
def EdgeCalculation.calculate (kalshi_price vegas_true_prob : ℚ)
    (num_contracts : ℤ) (position : String) (is_maker : Bool) :
    Except String EdgeCalculation := do
let fee ← calculate_kalshi_fee kalshi_price num_contracts is_maker
let fee_per_contract := fee / (num_contracts : ℚ)
if position = "yes" then
  let effective_cost := kalshi_price + fee_per_contract
  let potential_profit := 1 - effective_cost
  let expected_value := vegas_true_prob * potential_profit - (1 - vegas_true_prob) * effective_cost
  let gross_edge := vegas_true_prob - kalshi_price
  let net_edge := vegas_true_prob - effective_cost
  return { position := position, kalshi_price := kalshi_price,
           vegas_prob := vegas_true_prob, fee_per_contract := fee_per_contract,
           effective_cost := effective_cost, gross_edge := gross_edge,
           net_edge := net_edge, expected_value_per_contract := expected_value,
           total_expected_value := expected_value * (num_contracts : ℚ),
           is_value_bet := decide (net_edge > 0) }
else
  let no_price := 1 - kalshi_price
  let effective_cost := no_price + fee_per_contract
  let potential_profit := 1 - effective_cost
  let vegas_no_prob := 1 - vegas_true_prob
  let expected_value := vegas_no_prob * potential_profit - (1 - vegas_no_prob) * effective_cost
  let gross_edge := vegas_no_prob - no_price
  let net_edge := vegas_no_prob - effective_cost
  return { position := position, kalshi_price := no_price,
           vegas_prob := vegas_no_prob, fee_per_contract := fee_per_contract,
           effective_cost := effective_cost, gross_edge := gross_edge,
           net_edge := net_edge, expected_value_per_contract := expected_value,
           total_expected_value := expected_value * (num_contracts : ℚ),
           is_value_bet := decide (net_edge > 0) }

/-! ### Python `statistics` helpers (`median`, `stdev`) -/

/-- Ascending stable sort, as Python `sorted` on numbers. -/
def py_sorted (l : List ℚ) : List ℚ :=
List.insertionSort (· ≤ ·) l

/-- Python `statistics.median` (mean of the two middle values for an even
count); `0` on the empty list, which every caller below guards against. -/
def py_median (l : List ℚ) : ℚ :=
let s := py_sorted l
let n := l.length
if n % 2 = 1 then s.getD (n / 2) 0
else (s.getD (n / 2 - 1) 0 + s.getD (n / 2) 0) / 2

/-- Arithmetic mean (junk `0` on the empty list). -/
def py_mean (l : List ℚ) : ℚ :=
l.sum / (l.length : ℚ)

/-- The square of Python `statistics.stdev`: the sample variance
`Σ (x - mean)² / (n - 1)`. `statistics.stdev` itself is the (generally
irrational) square root of this value, so the model carries the square. -/
def py_stdev_sq (l : List ℚ) : ℚ :=
(l.map fun x => (x - py_mean l) ^ 2).sum / ((l.length : ℚ) - 1)

/-! ### `src/core/event_matcher.py` — lookup tables (pure data) -/

def CITY_PREFIXES : List String := [
  "los angeles", "la", "new york", "ny", "san francisco", "sf", "tampa bay", "tb", "golden state",
  "gs", "san antonio", "sa", "oklahoma city", "okc", "new orleans", "no", "green bay", "gb",
  "kansas city", "kc", "las vegas", "lv", "new england", "ne", "san diego", "sd", "san jose",
  "sj", "st louis", "stl", "salt lake", "sl", "twin cities", "minnesota", "mn", "washington",
  "dc", "miami", "denver", "phoenix", "seattle", "boston", "chicago", "detroit", "houston", "dallas",
  "atlanta", "philadelphia", "baltimore", "cleveland", "indianapolis", "jacksonville", "cincinnati",
  "pittsburgh", "carolina", "arizona", "tennessee", "buffalo", "milwaukee", "orlando", "memphis",
  "portland", "sacramento", "utah", "toronto", "brooklyn", "colorado", "florida", "anaheim",
  "columbus", "edmonton", "calgary", "vancouver", "ottawa", "montreal", "winnipeg", "nashville",
  "new jersey"
]

def NICKNAME_TO_ABBREV : List (String × String) := [
  ("hawks", "atl"),
  ("celtics", "bos"),
  ("nets", "bkn"),
  ("hornets", "cha"),
  ("bulls", "chi"),
  ("cavaliers", "cle"),
  ("cavs", "cle"),
  ("mavericks", "dal"),
  ("mavs", "dal"),
  ("nuggets", "den"),
  ("pistons", "det"),
  ("warriors", "gsw"),
  ("rockets", "hou"),
  ("pacers", "ind"),
  ("clippers", "lac"),
  ("lakers", "lal"),
  ("grizzlies", "mem"),
  ("heat", "mia"),
  ("bucks", "mil"),
  ("timberwolves", "min"),
  ("wolves", "min"),
  ("pelicans", "nop"),
  ("knicks", "nyk"),
  ("thunder", "okc"),
  ("magic", "orl"),
  ("76ers", "phi"),
  ("sixers", "phi"),
  ("suns", "phx"),
  ("trail blazers", "por"),
  ("blazers", "por"),
  ("kings", "sac"),
  ("spurs", "sas"),
  ("raptors", "tor"),
  ("jazz", "uta"),
  ("wizards", "was"),
  ("cardinals", "ari"),
  ("falcons", "atl"),
  ("ravens", "bal"),
  ("bills", "buf"),
  ("panthers", "car"),
  ("bears", "chi"),
  ("bengals", "cin"),
  ("browns", "cle"),
  ("cowboys", "dal"),
  ("broncos", "den"),
  ("lions", "det"),
  ("packers", "gb"),
  ("texans", "hou"),
  ("colts", "ind"),
  ("jaguars", "jax"),
  ("chiefs", "kc"),
  ("raiders", "lv"),
  ("chargers", "lac"),
  ("rams", "lar"),
  ("dolphins", "mia"),
  ("vikings", "min"),
  ("patriots", "ne"),
  ("pats", "ne"),
  ("saints", "no"),
  ("giants", "nyg"),
  ("jets", "nyj"),
  ("eagles", "phi"),
  ("steelers", "pit"),
  ("49ers", "sf"),
  ("niners", "sf"),
  ("seahawks", "sea"),
  ("buccaneers", "tb"),
  ("bucs", "tb"),
  ("titans", "ten"),
  ("commanders", "was"),
  ("ducks", "ana"),
  ("coyotes", "ari"),
  ("bruins", "bos"),
  ("sabres", "buf"),
  ("flames", "cgy"),
  ("hurricanes", "car"),
  ("blackhawks", "chi"),
  ("avalanche", "col"),
  ("blue jackets", "cbj"),
  ("stars", "dal"),
  ("red wings", "det"),
  ("oilers", "edm"),
  ("panthers", "fla"),
  ("kings", "la"),
  ("wild", "min"),
  ("canadiens", "mtl"),
  ("habs", "mtl"),
  ("predators", "nsh"),
  ("preds", "nsh"),
  ("devils", "njd"),
  ("islanders", "nyi"),
  ("rangers", "nyr"),
  ("senators", "ott"),
  ("sens", "ott"),
  ("flyers", "phi"),
  ("penguins", "pit"),
  ("pens", "pit"),
  ("sharks", "sjs"),
  ("kraken", "sea"),
  ("blues", "stl"),
  ("lightning", "tbl"),
  ("bolts", "tbl"),
  ("maple leafs", "tor"),
  ("leafs", "tor"),
  ("canucks", "van"),
  ("golden knights", "vgk"),
  ("knights", "vgk"),
  ("capitals", "wsh"),
  ("caps", "wsh"),
  ("jets", "wpg"),
  ("diamondbacks", "ari"),
  ("d-backs", "ari"),
  ("braves", "atl"),
  ("orioles", "bal"),
  ("red sox", "bos"),
  ("cubs", "chc"),
  ("white sox", "cws"),
  ("reds", "cin"),
  ("guardians", "cle"),
  ("rockies", "col"),
  ("tigers", "det"),
  ("astros", "hou"),
  ("royals", "kc"),
  ("angels", "laa"),
  ("dodgers", "lad"),
  ("marlins", "mia"),
  ("brewers", "mil"),
  ("twins", "min"),
  ("mets", "nym"),
  ("yankees", "nyy"),
  ("athletics", "ath"),
  ("a's", "ath"),
  ("phillies", "phi"),
  ("pirates", "pit"),
  ("padres", "sd"),
  ("giants", "sf"),
  ("mariners", "sea"),
  ("cardinals", "stl"),
  ("rays", "tb"),
  ("rangers", "tex"),
  ("blue jays", "tor"),
  ("jays", "tor"),
  ("nationals", "wsh"),
  ("nats", "wsh")
]

def FULL_NAME_TO_ABBREV : List (String × String) := [
  ("atlanta hawks", "atl"),
  ("boston celtics", "bos"),
  ("brooklyn nets", "bkn"),
  ("charlotte hornets", "cha"),
  ("chicago bulls", "chi"),
  ("cleveland cavaliers", "cle"),
  ("dallas mavericks", "dal"),
  ("denver nuggets", "den"),
  ("detroit pistons", "det"),
  ("golden state warriors", "gsw"),
  ("houston rockets", "hou"),
  ("indiana pacers", "ind"),
  ("los angeles clippers", "lac"),
  ("la clippers", "lac"),
  ("los angeles lakers", "lal"),
  ("la lakers", "lal"),
  ("memphis grizzlies", "mem"),
  ("miami heat", "mia"),
  ("milwaukee bucks", "mil"),
  ("minnesota timberwolves", "min"),
  ("new orleans pelicans", "nop"),
  ("new york knicks", "nyk"),
  ("oklahoma city thunder", "okc"),
  ("orlando magic", "orl"),
  ("philadelphia 76ers", "phi"),
  ("phoenix suns", "phx"),
  ("portland trail blazers", "por"),
  ("sacramento kings", "sac"),
  ("san antonio spurs", "sas"),
  ("toronto raptors", "tor"),
  ("utah jazz", "uta"),
  ("washington wizards", "was"),
  ("arizona cardinals", "ari"),
  ("atlanta falcons", "atl"),
  ("baltimore ravens", "bal"),
  ("buffalo bills", "buf"),
  ("carolina panthers", "car"),
  ("chicago bears", "chi"),
  ("cincinnati bengals", "cin"),
  ("cleveland browns", "cle"),
  ("dallas cowboys", "dal"),
  ("denver broncos", "den"),
  ("detroit lions", "det"),
  ("green bay packers", "gb"),
  ("houston texans", "hou"),
  ("indianapolis colts", "ind"),
  ("jacksonville jaguars", "jax"),
  ("kansas city chiefs", "kc"),
  ("las vegas raiders", "lv"),
  ("los angeles chargers", "lac"),
  ("la chargers", "lac"),
  ("los angeles rams", "lar"),
  ("la rams", "lar"),
  ("miami dolphins", "mia"),
  ("minnesota vikings", "min"),
  ("new england patriots", "ne"),
  ("new orleans saints", "no"),
  ("new york giants", "nyg"),
  ("new york jets", "nyj"),
  ("philadelphia eagles", "phi"),
  ("pittsburgh steelers", "pit"),
  ("san francisco 49ers", "sf"),
  ("seattle seahawks", "sea"),
  ("tampa bay buccaneers", "tb"),
  ("tennessee titans", "ten"),
  ("washington commanders", "was"),
  ("anaheim ducks", "ana"),
  ("arizona coyotes", "ari"),
  ("boston bruins", "bos"),
  ("buffalo sabres", "buf"),
  ("calgary flames", "cgy"),
  ("carolina hurricanes", "car"),
  ("chicago blackhawks", "chi"),
  ("colorado avalanche", "col"),
  ("columbus blue jackets", "cbj"),
  ("dallas stars", "dal"),
  ("detroit red wings", "det"),
  ("edmonton oilers", "edm"),
  ("florida panthers", "fla"),
  ("los angeles kings", "la"),
  ("la kings", "la"),
  ("minnesota wild", "min"),
  ("montreal canadiens", "mtl"),
  ("nashville predators", "nsh"),
  ("new jersey devils", "njd"),
  ("new york islanders", "nyi"),
  ("new york rangers", "nyr"),
  ("ottawa senators", "ott"),
  ("philadelphia flyers", "phi"),
  ("pittsburgh penguins", "pit"),
  ("san jose sharks", "sjs"),
  ("seattle kraken", "sea"),
  ("st louis blues", "stl"),
  ("st. louis blues", "stl"),
  ("tampa bay lightning", "tbl"),
  ("toronto maple leafs", "tor"),
  ("utah hockey club", "uta"),
  ("vancouver canucks", "van"),
  ("vegas golden knights", "vgk"),
  ("washington capitals", "wsh"),
  ("winnipeg jets", "wpg"),
  ("arizona diamondbacks", "ari"),
  ("atlanta braves", "atl"),
  ("baltimore orioles", "bal"),
  ("boston red sox", "bos"),
  ("chicago cubs", "chc"),
  ("chicago white sox", "cws"),
  ("cincinnati reds", "cin"),
  ("cleveland guardians", "cle"),
  ("colorado rockies", "col"),
  ("detroit tigers", "det"),
  ("houston astros", "hou"),
  ("kansas city royals", "kc"),
  ("los angeles angels", "laa"),
  ("la angels", "laa"),
  ("los angeles dodgers", "lad"),
  ("la dodgers", "lad"),
  ("miami marlins", "mia"),
  ("milwaukee brewers", "mil"),
  ("minnesota twins", "min"),
  ("new york mets", "nym"),
  ("new york yankees", "nyy"),
  ("oakland athletics", "ath"),
  ("philadelphia phillies", "phi"),
  ("pittsburgh pirates", "pit"),
  ("san diego padres", "sd"),
  ("san francisco giants", "sf"),
  ("seattle mariners", "sea"),
  ("st louis cardinals", "stl"),
  ("st. louis cardinals", "stl"),
  ("tampa bay rays", "tb"),
  ("texas rangers", "tex"),
  ("toronto blue jays", "tor"),
  ("washington nationals", "wsh")
]

def COLLEGE_MASCOTS : List String := [
  "wildcats", "bulldogs", "tigers", "eagles", "bears", "lions", "panthers", "hawks", "huskies",
  "cardinals", "knights", "bearcats", "buckeyes", "wolverines", "spartans", "gophers", "badgers",
  "hawkeyes", "cyclones", "jayhawks", "sooners", "longhorns", "aggies", "razorbacks", "rebels",
  "volunteers", "commodores", "gamecocks", "gators", "seminoles", "hurricanes", "cavaliers",
  "hokies", "wolfpack", "tar heels", "blue devils", "demon deacons", "orange", "yellow jackets",
  "fighting irish", "trojans", "bruins", "ducks", "beavers", "cougars", "utes", "buffaloes",
  "sun devils", "golden bears", "cardinal", "mountaineers", "red raiders", "horned frogs", "mustangs",
  "owls", "bobcats", "roadrunners", "miners", "lobos", "aztecs", "falcons", "rams", "broncos",
  "cowboys", "cornhuskers", "bluejays", "shockers", "pirates", "billikens", "musketeers", "hoyas",
  "friars", "red storm", "peacocks", "gaels", "toreros", "dons", "waves", "anteaters", "matadors",
  "titans", "highlanders", "hornets", "braves", "jaguars", "golden lions", "bison", "midshipmen",
  "black knights", "scarlet knights", "nittany lions", "terrapins", "hoosiers", "boilermakers",
  "fighting illini", "golden flashes", "redhawks", "rockets", "chippewas", "bulls", "zips", "penguins",
  "thundering herd", "flames"
]

def COLLEGE_ABBREV_MAP : List (String × List String) := [
  ("usc", ["southern california", "usc trojans", "trojans"]),
  ("ucla", ["ucla", "ucla bruins", "bruins"]),
  ("osu", ["ohio state", "ohio st", "buckeyes"]),
  ("mich", ["michigan", "wolverines"]),
  ("msu", ["michigan state", "michigan st", "spartans"]),
  ("psu", ["penn state", "penn st", "nittany lions"]),
  ("okla", ["oklahoma", "sooners"]),
  ("tex", ["texas", "longhorns"]),
  ("tamu", ["texas a&m", "texas am", "aggies"]),
  ("tcu", ["tcu", "horned frogs"]),
  ("bay", ["baylor", "bears"]),
  ("ttu", ["texas tech", "red raiders"]),
  ("ku", ["kansas", "jayhawks"]),
  ("ksu", ["kansas state", "kansas st", "wildcats"]),
  ("isu", ["iowa state", "iowa st", "cyclones"]),
  ("iowa", ["iowa", "hawkeyes"]),
  ("neb", ["nebraska", "cornhuskers"]),
  ("wisc", ["wisconsin", "badgers"]),
  ("minn", ["minnesota", "golden gophers", "gophers"]),
  ("ill", ["illinois", "fighting illini"]),
  ("ind", ["indiana", "hoosiers"]),
  ("pur", ["purdue", "boilermakers"]),
  ("nw", ["northwestern", "wildcats"]),
  ("rut", ["rutgers", "scarlet knights"]),
  ("md", ["maryland", "terrapins", "terps"]),
  ("unc", ["north carolina", "tar heels"]),
  ("duke", ["duke", "blue devils"]),
  ("ncsu", ["nc state", "north carolina state", "wolfpack"]),
  ("wake", ["wake forest", "demon deacons"]),
  ("uva", ["virginia", "cavaliers", "wahoos"]),
  ("vt", ["virginia tech", "hokies"]),
  ("clem", ["clemson", "tigers"]),
  ("lou", ["louisville", "cardinals"]),
  ("pitt", ["pittsburgh", "pitt", "panthers"]),
  ("syr", ["syracuse", "orange"]),
  ("bc", ["boston college", "eagles"]),
  ("nd", ["notre dame", "fighting irish"]),
  ("fsu", ["florida state", "florida st", "seminoles"]),
  ("fla", ["florida", "gators"]),
  ("uga", ["georgia", "bulldogs"]),
  ("aub", ["auburn", "tigers"]),
  ("bama", ["alabama", "crimson tide"]),
  ("lsu", ["lsu", "louisiana state", "tigers"]),
  ("miss", ["ole miss", "mississippi", "rebels"]),
  ("msst", ["mississippi state", "mississippi st", "bulldogs"]),
  ("ark", ["arkansas", "razorbacks"]),
  ("mizzou", ["missouri", "tigers"]),
  ("uk", ["kentucky", "wildcats"]),
  ("tenn", ["tennessee", "volunteers", "vols"]),
  ("van", ["vanderbilt", "commodores"]),
  ("scar", ["south carolina", "gamecocks"]),
  ("ore", ["oregon", "ducks"]),
  ("orst", ["oregon state", "oregon st", "beavers"]),
  ("wash", ["washington", "huskies"]),
  ("wsu", ["washington state", "washington st", "cougars"]),
  ("stan", ["stanford", "cardinal"]),
  ("cal", ["california", "cal", "golden bears"]),
  ("ariz", ["arizona", "wildcats"]),
  ("asu", ["arizona state", "arizona st", "sun devils"]),
  ("utah", ["utah", "utes"]),
  ("colo", ["colorado", "buffaloes", "buffs"]),
  ("byu", ["byu", "brigham young", "cougars"]),
  ("ucf", ["ucf", "central florida", "knights"]),
  ("cin", ["cincinnati", "bearcats"]),
  ("hou", ["houston", "cougars"]),
  ("wvu", ["west virginia", "mountaineers"]),
  ("unlv", ["unlv", "rebels"]),
  ("sdsu", ["san diego state", "san diego st", "aztecs"]),
  ("bsu", ["boise state", "boise st", "broncos"]),
  ("fres", ["fresno state", "fresno st", "bulldogs"]),
  ("sjsu", ["san jose state", "san jose st", "spartans"]),
  ("csu", ["colorado state", "colorado st", "rams"]),
  ("wyo", ["wyoming", "cowboys"]),
  ("unm", ["new mexico", "lobos"]),
  ("afa", ["air force", "falcons"]),
  ("navy", ["navy", "midshipmen"]),
  ("army", ["army", "black knights"]),
  ("smc", ["saint marys", "saint mary's", "gaels"]),
  ("sf", ["san francisco", "dons"]),
  ("gonz", ["gonzaga", "bulldogs", "zags"]),
  ("creigh", ["creighton", "bluejays"]),
  ("marq", ["marquette", "golden eagles"]),
  ("nova", ["villanova", "wildcats"]),
  ("gtown", ["georgetown", "hoyas"]),
  ("shu", ["seton hall", "pirates"]),
  ("prov", ["providence", "friars"]),
  ("xav", ["xavier", "musketeers"]),
  ("but", ["butler", "bulldogs"]),
  ("conn", ["connecticut", "uconn", "huskies"]),
  ("mem", ["memphis", "tigers"]),
  ("smu", ["smu", "southern methodist", "mustangs"]),
  ("tulsa", ["tulsa", "golden hurricane"]),
  ("tulane", ["tulane", "green wave"])
]

/-! ### `src/core/event_matcher.py` — name normalization and matching -/

/-- Association-list lookup with Python `dict` semantics: the **last**
binding of a duplicated key wins (dict literals overwrite earlier keys). -/
def dict_get (d : List (String × String)) (k : String) : Option String :=
((d.filter fun p => p.1 = k).getLast?).map (·.2)

/-- `sorted(CITY_PREFIXES, key=len, reverse=True)`: stable descending by
length, recomputed by the source on every call but constant. -/
def sorted_city_names : List String :=
List.insertionSort (fun a b => b.length ≤ a.length) CITY_PREFIXES

/-- `sorted(COLLEGE_MASCOTS, key=len, reverse=True)`. -/
def sorted_college_mascots : List String :=
List.insertionSort (fun a b => b.length ≤ a.length) COLLEGE_MASCOTS

/-- The `for prefix in sorted(...)` loop of `normalize_team_name`: strip the
first matching city name followed by a space, then re-strip; `break` after
the first hit. -/
def stripCityLoop : String → List String → String
| normalized, [] => normalized
| normalized, city :: rest =>
  if py_starts_with normalized (city ++ " ") then
    py_strip ⟨normalized.toList.drop city.length⟩
  else stripCityLoop normalized rest

/-- `normalize_team_name`: lowercase, trim, strip the longest city prefix,
collapse whitespace. -/
def normalize_team_name (name : String) : String :=
if name = "" then ""
else
  let normalized := py_lower (py_strip name)
  let normalized := stripCityLoop normalized sorted_city_names
  py_join_space (py_split_ws normalized)

/-- `get_team_abbrev`: full-name table first, then the nickname table on
the normalized name, else the empty string. -/
def get_team_abbrev (team_name : String) : String :=
let team_lower := py_strip (py_lower team_name)
match dict_get FULL_NAME_TO_ABBREV team_lower with
| some ab => ab
| none =>
  match dict_get NICKNAME_TO_ABBREV (normalize_team_name team_name) with
  | some ab => ab
  | none => ""

/-- The mascot-stripping loop of `extract_college_school_name`: the mascot
must be a trailing token (`endswith(' ' + mascot)`); `break` after the
first hit. -/
def stripMascotLoop : String → List String → String
| name_lower, [] => name_lower
| name_lower, mascot :: rest =>
  if py_ends_with name_lower (" " ++ mascot) then
    py_strip ⟨name_lower.toList.take (name_lower.length - mascot.length - 1)⟩
  else stripMascotLoop name_lower rest

/-- `extract_college_school_name`: lowercase, trim, strip the longest
mascot suffix, normalize "st."/"state" to "st", drop apostrophes. -/
def extract_college_school_name (vegas_name : String) : String :=
if vegas_name = "" then ""
else
  let name_lower := py_strip (py_lower vegas_name)
  let name_lower := stripMascotLoop name_lower sorted_college_mascots
  let name_lower := py_replace (py_replace name_lower "st." "st") "state" "st"
  let name_lower := py_replace (py_replace name_lower "'s" "s") "'" ""
  py_strip name_lower

/-- The alias scan of `get_college_abbrev`: first entry (in insertion
order) one of whose alias names equals, is a prefix of, or is contained in
the school key. -/
def collegeAbbrevScan (school : String) : List (String × List String) → Option String
| [] => none
| (ab, names) :: rest =>
  if names.any (fun name =>
      school = py_lower name || py_starts_with school (py_lower name) ||
        py_contains school (py_lower name)) then
    some ab
  else collegeAbbrevScan school rest

/-- `get_college_abbrev`: alias table first, then an auto-generated code
(first three characters for a single word, initials otherwise). -/
def get_college_abbrev (team_name : String) : String :=
let school := extract_college_school_name team_name
match collegeAbbrevScan school COLLEGE_ABBREV_MAP with
| some ab => ab
| none =>
  let words := py_split_ws school
  if words.length = 1 then
    if school.length ≥ 3 then ⟨school.toList.take 3⟩ else school
  else ⟨words.filterMap fun w => w.toList.head?⟩

/-- `COLLEGE_ABBREV_MAP.get(abbrev, [])`. -/
def college_map_get (ab : String) : List String :=
(((COLLEGE_ABBREV_MAP.filter fun p => p.1 = ab).getLast?).map (·.2)).getD []

/-- `match_college_teams`: containment/alias evidence first, then fuzzy
scores from the external `fuzz.partial_ratio`, abstracted as `pr`. -/
def match_college_teams (pr : String → String → ℚ)
    (vegas_home vegas_away kalshi_title : String) : Bool × ℚ :=
let home_school := extract_college_school_name vegas_home
let away_school := extract_college_school_name vegas_away
let title_lower := py_replace (py_replace (py_replace (py_lower kalshi_title) "st." "st") "'s" "s") "'" ""
let home_in_title := py_contains title_lower home_school ||
  (college_map_get (get_college_abbrev vegas_home)).any fun name =>
    py_contains title_lower (py_lower name)
let away_in_title := py_contains title_lower away_school ||
  (college_map_get (get_college_abbrev vegas_away)).any fun name =>
    py_contains title_lower (py_lower name)
let home_score := pr home_school title_lower
let away_score := pr away_school title_lower
if home_in_title && away_in_title then (true, 100)
else if home_score ≥ 80 ∧ away_score ≥ 80 then (true, (home_score + away_score) / 2)
else if (home_in_title || decide (home_score ≥ 85)) && (away_in_title || decide (away_score ≥ 85)) then
  (true, max home_score away_score)
else (false, 0)

/-- `calculate_team_match_score`: `fuzz.partial_ratio` (abstracted as `pr`)
between the normalized Vegas team and the lowercased Kalshi text. -/
def calculate_team_match_score (pr : String → String → ℚ)
    (vegas_team kalshi_text : String) : ℚ :=
pr (normalize_team_name vegas_team) (py_lower kalshi_text)

/-- One Kalshi market record, with the `_game_id`, `_team_code` and
`_sport` attributes the API collaborator attaches before matching. -/
structure KalshiMarket where
  ticker : String
  title : String
  game_id : String
  team_code : String
  sport : String
  yes_ask : ℤ
  deriving Repr, DecidableEq

/-- One value of the matcher's `kalshi_games` dict: the grouped markets
with the shared title and sport (taken from the first market seen). -/
structure KalshiGame where
  markets : List KalshiMarket
  title : String
  sport : String
  deriving Repr, DecidableEq

/-- The grouping loop of `match_game_winner_markets`: a `dict` keyed by
`_game_id` in insertion order, each group's market list in encounter
order; markets with an empty game id are skipped. -/
def group_kalshi_games (kalshi_markets : List KalshiMarket) : List (String × KalshiGame) :=
kalshi_markets.foldl (fun games market =>
  if market.game_id = "" then games
  else if (games.find? fun g => g.1 = market.game_id).isSome then
    games.map fun g =>
      if g.1 = market.game_id then (g.1, { g.2 with markets := g.2.markets ++ [market] })
      else g
  else
    games ++ [(market.game_id, { markets := [market], title := market.title,
                                 sport := market.sport })]) []

/-- The non-college market-assignment loop: exact lowercased team-code
match against the home/away abbreviation; a later matching market
overwrites an earlier one, exactly as the Python loop reassigns. -/
def assign_pro (home_abbrev away_abbrev : String) (markets : List KalshiMarket) :
    Option KalshiMarket × Option KalshiMarket :=
markets.foldl (fun hm_am m =>
  let tc := py_lower m.team_code
  if tc = home_abbrev then (some m, hm_am.2)
  else if tc = away_abbrev then (hm_am.1, some m)
  else hm_am) (none, none)

/-- The college market-assignment loop, with the `fuzz.ratio ≥ 80` and
school-key-prefix fallbacks (the external `fuzz.ratio` abstracted as
`fr`); the `elif` chain means each market feeds at most one side. -/
def assign_college (fr : String → String → ℚ)
    (home_abbrev away_abbrev home_school away_school : String)
    (markets : List KalshiMarket) : Option KalshiMarket × Option KalshiMarket :=
markets.foldl (fun hm_am m =>
  let tc := py_lower m.team_code
  if tc = home_abbrev then (some m, hm_am.2)
  else if tc = away_abbrev then (hm_am.1, some m)
  else if fr tc home_abbrev ≥ 80 ∨ py_starts_with home_school tc then (some m, hm_am.2)
  else if fr tc away_abbrev ≥ 80 ∨ py_starts_with away_school tc then (hm_am.1, some m)
  else hm_am) (none, none)

/-- What the matcher's inner loop computes for one (event, candidate game)
pair: whether the game qualifies, its combined score, and the market
assigned to each side. The Python source computes the assignment only
after the `combined_score > best_score` test; the computation is pure, so
hoisting it into this record preserves the loop's behaviour. -/
structure CandidateEval where
  qualifies : Bool
  combined_score : ℚ
  home_market : Option KalshiMarket
  away_market : Option KalshiMarket
  deriving Repr, DecidableEq

/-- `(home_school.split()[-1] if home_school else '')`. -/
def last_word (s : String) : String :=
((py_split_ws s).getLast?).getD ""

/-- One candidate evaluation of the matcher's inner loop, college and
non-college paths. -/
def eval_candidate (pr fr : String → String → ℚ) (e_sport_key e_home_team e_away_team : String)
    (g : String × KalshiGame) : CandidateEval :=
let is_college := py_contains (py_lower e_sport_key) "ncaa"
let title := g.2.title
if is_college then
  let home_abbrev := get_college_abbrev e_home_team
  let away_abbrev := get_college_abbrev e_away_team
  let home_school := extract_college_school_name e_home_team
  let away_school := extract_college_school_name e_away_team
  let m := match_college_teams pr e_home_team e_away_team title
  let hm_am := assign_college fr home_abbrev away_abbrev home_school away_school g.2.markets
  { qualifies := m.1, combined_score := m.2 * 2,
    home_market := hm_am.1, away_market := hm_am.2 }
else
  let home_abbrev := get_team_abbrev e_home_team
  let away_abbrev := get_team_abbrev e_away_team
  let home_school := normalize_team_name e_home_team
  let away_school := normalize_team_name e_away_team
  let title_lower := py_lower title
  let home_in_title := py_contains title_lower home_school ||
    py_contains (py_replace title_lower " " "") home_abbrev ||
    py_contains title_lower (last_word home_school)
  let away_in_title := py_contains title_lower away_school ||
    py_contains (py_replace title_lower " " "") away_abbrev ||
    py_contains title_lower (last_word away_school)
  let home_score := calculate_team_match_score pr e_home_team title
  let away_score := calculate_team_match_score pr e_away_team title
  let qualifies := (home_in_title && away_in_title) ||
    (decide (home_score ≥ 60) && decide (away_score ≥ 60))
  let combined_score := home_score + away_score +
    (if home_in_title then 50 else 0) + (if away_in_title then 50 else 0)
  let hm_am := assign_pro home_abbrev away_abbrev g.2.markets
  { qualifies := qualifies, combined_score := combined_score,
    home_market := hm_am.1, away_market := hm_am.2 }

/-- The best-candidate selection loop over the grouped games, carried
state `(best_score, best_match)` as in the source: a candidate replaces
the current best only if it qualifies, **strictly** beats `best_score`,
and assigns a market to at least one side. -/
def best_match_loop (pr fr : String → String → ℚ)
    (e_sport_key e_home_team e_away_team : String) :
    List (String × KalshiGame) → ℚ → Option (String × CandidateEval) →
    Option (String × CandidateEval)
| [], _, best => best
| g :: rest, best_score, best =>
  let ev := eval_candidate pr fr e_sport_key e_home_team e_away_team g
  if ev.qualifies && decide (ev.combined_score > best_score) then
    if ev.home_market.isSome || ev.away_market.isSome then
      best_match_loop pr fr e_sport_key e_home_team e_away_team rest ev.combined_score (some (g.1, ev))
    else
      best_match_loop pr fr e_sport_key e_home_team e_away_team rest best_score best
  else
    best_match_loop pr fr e_sport_key e_home_team e_away_team rest best_score best

/-! ### Input records (section 6 of the spec: the API collaborators) -/

/-- One `{name, price}` outcome in a bookmaker's h2h market. -/
structure Outcome where
  name : String
  price : ℤ
  deriving Repr, DecidableEq

/-- One market of a bookmaker (`{key, outcomes}`). -/
structure BookMarket where
  key : String
  outcomes : List Outcome
  deriving Repr, DecidableEq

/-- One bookmaker record (`{key, markets}`); only `markets` is consulted. -/
structure Bookmaker where
  markets : List BookMarket
  deriving Repr, DecidableEq

/-- One Vegas event record. -/
structure VegasEvent where
  id : String
  sport_key : String
  home_team : String
  away_team : String
  bookmakers : List Bookmaker
  deriving Repr, DecidableEq

/-- The dict comprehension `{o['name']: o['price'] for o in outcomes}`
followed by lookup: the **last** outcome with the given name wins. -/
def outcomes_get (outcomes : List Outcome) (name : String) : Option ℤ :=
((outcomes.filter fun o => o.name = name).getLast?).map (·.price)

/-- One matched pair as `match_game_winner_markets` returns it. -/
structure MatchResult where
  vegas_event : VegasEvent
  kalshi_home_market : Option KalshiMarket
  kalshi_away_market : Option KalshiMarket
  game_id : String
  deriving Repr, DecidableEq

/-- `EventMatcher.match_game_winner_markets`: group the Kalshi markets by
game id, then keep for each event the best-scoring qualifying game that
assigned a market to at least one side; the Python `for` loop appends one
match per event with a surviving best candidate. -/
def EventMatcher.match_game_winner_markets (pr fr : String → String → ℚ)
    (vegas_events : List VegasEvent) (kalshi_markets : List KalshiMarket) :
    List MatchResult :=
let kalshi_games := group_kalshi_games kalshi_markets
vegas_events.foldl (fun ms e =>
  match best_match_loop pr fr e.sport_key e.home_team e.away_team kalshi_games 0 none with
  | some best =>
    ms ++ [{ vegas_event := e, kalshi_home_market := best.2.home_market,
                  kalshi_away_market := best.2.away_market, game_id := best.1 }]
  | none => ms) []

/-! ### `src/core/value_finder.py` -/

/-- `ValueOpportunity`: the final ranked record. -/
structure ValueOpportunity where
  sport : String
  vegas_event_id : String
  kalshi_ticker : String
  home_team : String
  away_team : String
  vegas_home_prob : ℚ
  vegas_away_prob : ℚ
  kalshi_home_price : ℚ
  kalshi_away_price : ℚ
  recommended_position : String
  recommended_team : String
  gross_edge : ℚ
  net_edge : ℚ
  fee_impact : ℚ
  expected_value_per_contract : ℚ
  expected_value_100_contracts : ℚ
  num_bookmakers : ℕ
  confidence : String
  deriving Repr, DecidableEq

/-- The consensus record `_process_vegas_event` builds. `home_std_sq` and
`away_std_sq` carry the **square** of the code's `statistics.stdev` value
(the sample variance), since the standard deviation itself is irrational
in general; `0` stands for the code's literal `0` when at most one sample
contributes. -/
structure ConsensusResult where
  home_prob : ℚ
  away_prob : ℚ
  num_bookmakers : ℕ
  home_std_sq : ℚ
  away_std_sq : ℚ
  deriving Repr, DecidableEq

/-- The inner double loop of `_process_vegas_event`: one `(home, away)`
American-odds pair per bookmaker/h2h-market that quotes both the home and
the away team by name. -/
def h2h_quotes (event : VegasEvent) : List (ℤ × ℤ) :=
(event.bookmakers.map fun book =>
  book.markets.filterMap fun market =>
    if market.key = "h2h" then
      match outcomes_get market.outcomes event.home_team,
            outcomes_get market.outcomes event.away_team with
      | some h, some a => some (h, a)
      | _, _ => none
    else none).flatten

/-- `ValueFinder._process_vegas_event`: `None` when fewer bookmakers are
listed than `min_bookmakers` or no quote covers both sides; otherwise the
median, count and dispersion of the de-vigged probabilities. A
`remove_vig` domain error propagates, as the Python exception would. -/
def process_vegas_event (min_bookmakers : ℕ) (event : VegasEvent) :
    Except String (Option ConsensusResult) := do
if event.bookmakers.length < min_bookmakers then
  return none
let devigged ← (h2h_quotes event).mapM fun q =>
  remove_vig (american_to_implied_prob q.1) (american_to_implied_prob q.2)
let home_probs := devigged.map (·.1)
let away_probs := devigged.map (·.2)
if home_probs.isEmpty then
  return none
return some {
  home_prob := py_median home_probs,
  away_prob := py_median away_probs,
  num_bookmakers := home_probs.length,
  home_std_sq := if home_probs.length > 1 then py_stdev_sq home_probs else 0,
  away_std_sq := if away_probs.length > 1 then py_stdev_sq away_probs else 0 }

/-- `ValueFinder._determine_confidence`. The code compares the standard
deviation with `0.02`/`0.04`; on the squared dispersion this model carries
that is the equivalent comparison with `0.0004`/`0.0016`. -/
def determine_confidence (num_bookmakers : ℕ) (prob_std_sq : ℚ) : String :=
if num_bookmakers ≥ 8 ∧ prob_std_sq < 0.0004 then "high"
else if num_bookmakers ≥ 5 ∧ prob_std_sq < 0.0016 then "medium"
else "low"

/-- The home-side `ValueOpportunity` constructor of
`find_game_winner_value`. -/
def mk_home_opp (mtch : MatchResult) (vegas_probs : ConsensusResult)
    (home_market : KalshiMarket) (home_price : ℚ) (home_calc : EdgeCalculation) :
    ValueOpportunity :=
let prob_std_sq := max vegas_probs.home_std_sq vegas_probs.away_std_sq
{ sport := mtch.vegas_event.sport_key,
  vegas_event_id := mtch.vegas_event.id,
  kalshi_ticker := home_market.ticker,
  home_team := mtch.vegas_event.home_team,
  away_team := mtch.vegas_event.away_team,
  vegas_home_prob := vegas_probs.home_prob,
  vegas_away_prob := vegas_probs.away_prob,
  kalshi_home_price := home_price,
  kalshi_away_price := match mtch.kalshi_away_market with
    | some am => (am.yes_ask : ℚ) / 100
    | none => 0,
  recommended_position := "yes",
  recommended_team := "home",
  gross_edge := home_calc.gross_edge,
  net_edge := home_calc.net_edge,
  fee_impact := home_calc.fee_per_contract,
  expected_value_per_contract := home_calc.expected_value_per_contract,
  expected_value_100_contracts := home_calc.total_expected_value,
  num_bookmakers := vegas_probs.num_bookmakers,
  confidence := determine_confidence vegas_probs.num_bookmakers prob_std_sq }

/-- The away-side `ValueOpportunity` constructor of
`find_game_winner_value`. -/
def mk_away_opp (mtch : MatchResult) (vegas_probs : ConsensusResult)
    (away_market : KalshiMarket) (away_price : ℚ) (away_calc : EdgeCalculation) :
    ValueOpportunity :=
let prob_std_sq := max vegas_probs.home_std_sq vegas_probs.away_std_sq
{ sport := mtch.vegas_event.sport_key,
  vegas_event_id := mtch.vegas_event.id,
  kalshi_ticker := away_market.ticker,
  home_team := mtch.vegas_event.home_team,
  away_team := mtch.vegas_event.away_team,
  vegas_home_prob := vegas_probs.home_prob,
  vegas_away_prob := vegas_probs.away_prob,
  kalshi_home_price := match mtch.kalshi_home_market with
    | some hm => (hm.yes_ask : ℚ) / 100
    | none => 0,
  kalshi_away_price := away_price,
  recommended_position := "yes",
  recommended_team := "away",
  gross_edge := away_calc.gross_edge,
  net_edge := away_calc.net_edge,
  fee_impact := away_calc.fee_per_contract,
  expected_value_per_contract := away_calc.expected_value_per_contract,
  expected_value_100_contracts := away_calc.total_expected_value,
  num_bookmakers := vegas_probs.num_bookmakers,
  confidence := determine_confidence vegas_probs.num_bookmakers prob_std_sq }

/-- The home-side check of the main loop: evaluate the home listing as a
YES position at its ask price and append an opportunity when the net edge
clears the threshold. -/
def check_home_side (min_edge : ℚ) (vegas_probs : ConsensusResult)
    (mtch : MatchResult) (acc : List ValueOpportunity) :
    Except String (List ValueOpportunity) := do
match mtch.kalshi_home_market with
| none => return acc
| some home_market =>
  let home_price := (home_market.yes_ask : ℚ) / 100
  if 0 < home_price ∧ home_price < 1 then do
    let home_calc ← EdgeCalculation.calculate home_price vegas_probs.home_prob 100 "yes" false
    if home_calc.net_edge ≥ min_edge then
      return acc ++ [mk_home_opp mtch vegas_probs home_market home_price home_calc]
    else
      return acc
  else
    return acc

/-- The away-side check of the main loop. -/
def check_away_side (min_edge : ℚ) (vegas_probs : ConsensusResult)
    (mtch : MatchResult) (acc : List ValueOpportunity) :
    Except String (List ValueOpportunity) := do
match mtch.kalshi_away_market with
| none => return acc
| some away_market =>
  let away_price := (away_market.yes_ask : ℚ) / 100
  if 0 < away_price ∧ away_price < 1 then do
    let away_calc ← EdgeCalculation.calculate away_price vegas_probs.away_prob 100 "yes" false
    if away_calc.net_edge ≥ min_edge then
      return acc ++ [mk_away_opp mtch vegas_probs away_market away_price away_calc]
    else
      return acc
  else
    return acc

/-- One iteration of the `for match in matches` loop of
`find_game_winner_value`. -/
def process_match (min_edge : ℚ) (min_bookmakers : ℕ)
    (acc : List ValueOpportunity) (mtch : MatchResult) :
    Except String (List ValueOpportunity) := do
let vegas_probs? ← process_vegas_event min_bookmakers mtch.vegas_event
match vegas_probs? with
| none => return acc
| some vegas_probs =>
  let acc ← check_home_side min_edge vegas_probs mtch acc
  check_away_side min_edge vegas_probs mtch acc

/-- Descending order on `net_edge`, the sort key of the final ranking. -/
def desc_net_edge (a b : ValueOpportunity) : Prop :=
b.net_edge ≤ a.net_edge

instance : DecidableRel desc_net_edge := fun a b =>
inferInstanceAs (Decidable (b.net_edge ≤ a.net_edge))

instance : IsTotal ValueOpportunity desc_net_edge :=
⟨fun a b => le_total b.net_edge a.net_edge⟩

instance : IsTrans ValueOpportunity desc_net_edge :=
⟨fun _ _ _ h1 h2 => le_trans h2 h1⟩

/-- `sorted(opportunities, key=lambda x: x.net_edge, reverse=True)`:
a stable sort in descending net-edge order. -/
def py_sort_desc (l : List ValueOpportunity) : List ValueOpportunity :=
List.insertionSort desc_net_edge l

/-- `ValueFinder.find_game_winner_value`: match events to markets, build
the consensus per match, check home then away side, and rank by net edge
descending. -/
def find_game_winner_value (pr fr : String → String → ℚ)
    (min_edge : ℚ) (min_bookmakers : ℕ)
    (vegas_events : List VegasEvent) (kalshi_markets : List KalshiMarket) :
    Except String (List ValueOpportunity) := do
let ms := EventMatcher.match_game_winner_markets pr fr vegas_events kalshi_markets
let opportunities ← ms.foldlM (process_match min_edge min_bookmakers) []
return py_sort_desc opportunities

/-! ### Concrete instances and specification-side definitions -/

/-- The total de-vig of one American-odds quote: what `remove_vig` returns
on the implied probabilities when it does not raise. -/
def devig_pair (q : ℤ × ℤ) : ℚ × ℚ :=
let h := american_to_implied_prob q.1
let a := american_to_implied_prob q.2
(h / (h + a), a / (h + a))

/-- The three-bookmaker event used to witness C5: every book quotes
−110/−110, so each de-vigged probability is 1/2. -/
def c5_event : VegasEvent :=
{ id := "ev-c5", sport_key := "basketball_nba", home_team := "Boston Celtics",
  away_team := "Los Angeles Lakers",
  bookmakers := [
    { markets := [{ key := "h2h", outcomes := [
        { name := "Boston Celtics", price := -110 },
        { name := "Los Angeles Lakers", price := -110 }] }] },
    { markets := [{ key := "h2h", outcomes := [
        { name := "Boston Celtics", price := -110 },
        { name := "Los Angeles Lakers", price := -110 }] }] },
    { markets := [{ key := "h2h", outcomes := [
        { name := "Boston Celtics", price := -110 },
        { name := "Los Angeles Lakers", price := -110 }] }] }] }

/-- An event listing three bookmakers of which only the first quotes the
exact home/away pair: the consensus gate counts listed bookmakers, not
quoting ones. -/
def c3_event : VegasEvent :=
{ id := "ev-c3", sport_key := "basketball_nba", home_team := "Boston Celtics",
  away_team := "Los Angeles Lakers",
  bookmakers := [
    { markets := [{ key := "h2h", outcomes := [
        { name := "Boston Celtics", price := -110 },
        { name := "Los Angeles Lakers", price := -110 }] }] },
    { markets := [] },
    { markets := [] }] }

/-- What holds of every opportunity the pipeline appends: it cleared the
edge threshold, it is a YES recommendation on one of the two teams, and
its edge fields satisfy the YES-branch equations against that team's own
listing ask price. -/
def opp_good (min_edge : ℚ) (o : ValueOpportunity) : Prop :=
min_edge ≤ o.net_edge ∧
o.recommended_position = "yes" ∧
(o.recommended_team = "home" ∨ o.recommended_team = "away") ∧
(o.recommended_team = "home" →
  o.gross_edge = o.vegas_home_prob - o.kalshi_home_price ∧
  o.net_edge = o.gross_edge - o.fee_impact) ∧
(o.recommended_team = "away" →
  o.gross_edge = o.vegas_away_prob - o.kalshi_away_price ∧
  o.net_edge = o.gross_edge - o.fee_impact)

/-- The all-zero stand-in for the external fuzzy scorers, used by concrete
instantiations. -/
def zero_score : String → String → ℚ := fun _ _ => 0

/-- A candidate game is eligible for selection when it qualifies and
assigns a market to at least one side — only such candidates can become
the kept best match. -/
def is_eligible (pr fr : String → String → ℚ) (sk ht aw : String)
    (c : String × KalshiGame) : Bool :=
let ev := eval_candidate pr fr sk ht aw c
ev.qualifies && (ev.home_market.isSome || ev.away_market.isSome)

/-- A candidate's combined score. -/
def cand_score (pr fr : String → String → ℚ) (sk ht aw : String)
    (c : String × KalshiGame) : ℚ :=
(eval_candidate pr fr sk ht aw c).combined_score

/-- The NBA event of the C8 counterexample. -/
def c8_event : VegasEvent :=
{ id := "ev-c8", sport_key := "basketball_nba", home_team := "Boston Celtics",
  away_team := "Los Angeles Lakers", bookmakers := [] }

/-- First-seen listing group "g1": its title names both teams, but its only
market's team code matches neither side, so nothing can be assigned. -/
def c8_m1 : KalshiMarket :=
{ ticker := "KXNBAGAME-g1-XXX", title := "Lakers vs Celtics", game_id := "g1",
  team_code := "XXX", sport := "NBA", yes_ask := 50 }

/-- Second listing group "g2" with the same title (a double-header): its
market's team code "BOS" assigns the home side. -/
def c8_m2 : KalshiMarket :=
{ ticker := "KXNBAGAME-g2-BOS", title := "Lakers vs Celtics", game_id := "g2",
  team_code := "BOS", sport := "NBA", yes_ask := 50 }

/-- The first grouped candidate as the matcher builds it. -/
def c8_cand1 : String × KalshiGame :=
("g1", { markets := [c8_m1], title := "Lakers vs Celtics", sport := "NBA" })

/-- The second grouped candidate. -/
def c8_cand2 : String × KalshiGame :=
("g2", { markets := [c8_m2], title := "Lakers vs Celtics", sport := "NBA" })

/-! ## Theorems -/

/-- `Rat.ceil` (the executable ceiling used in `calculate_kalshi_fee`)
agrees with the mathematical ceiling `⌈·⌉`. -/
theorem rat_ceil_eq_intCeil (q : ℚ) : q.ceil = ⌈q⌉ := by
  unfold Rat.ceil
  split
  · next h =>
    have hq : (q.num : ℚ) = q := Rat.coe_int_num_of_den_eq_one h
    conv_rhs => rw [← hq]
    rw [Int.ceil_intCast]
  · next h =>
    rw [← Rat.floor_def]
    rcases Int.fract_eq_zero_or_add_one_sub_ceil q with h0 | h1
    · exfalso
      have hq : q = (⌊q⌋ : ℚ) := by
        have h0' := h0
        unfold Int.fract at h0'
        linarith
      have : q.den = 1 := by rw [hq]; exact Rat.den_intCast _
      exact h this
    · have hc : (⌈q⌉ : ℚ) = (⌊q⌋ : ℚ) + 1 := by
        unfold Int.fract at h1
        linarith
      have h2 : ((⌊q⌋ + 1 : ℤ) : ℚ) = ((⌈q⌉ : ℤ) : ℚ) := by push_cast; linarith
      exact_mod_cast h2

/-- On in-range inputs the fee calculator returns the rounded-up fee. -/
theorem fee_ok (price : ℚ) (n : ℤ) (mk : Bool)
    (h1 : 0 < price) (h2 : price < 1) (h3 : 0 < n) :
    calculate_kalshi_fee price n mk =
      .ok ((((if mk then KALSHI_MAKER_FEE_MULTIPLIER else KALSHI_TAKER_FEE_MULTIPLIER) *
        (n : ℚ) * price * (1 - price) * 100).ceil : ℚ) / 100) := by
  have hc1 : ¬(price ≤ 0 ∨ price ≥ 1) := by push_neg; exact ⟨h1, h2⟩
  have hc2 : ¬(n ≤ 0) := by omega
  unfold calculate_kalshi_fee
  rw [if_neg hc1, if_neg hc2]

/-- The two fee multipliers are positive. -/
theorem multiplier_pos (mk : Bool) :
    0 < (if mk then KALSHI_MAKER_FEE_MULTIPLIER else KALSHI_TAKER_FEE_MULTIPLIER) := by
  cases mk <;> with_unfolding_all decide

/-- C1: for every price p with 0 < p < 1 and contract count n > 0,
`calculate_kalshi_fee` returns `⌈multiplier · n · p · (1−p) · 100⌉ / 100`
(multiplier 0.07 for taker, 0.0175 for maker); the returned fee times 100
is an integer and the fee is at least the unrounded value
`multiplier · n · p · (1−p)`; for p ≤ 0, p ≥ 1 or n ≤ 0 the function
raises a domain error. -/
theorem C1_fee_formula (price : ℚ) (num_contracts : ℤ) (is_maker : Bool) :
    (0 < price → price < 1 → 0 < num_contracts →
      calculate_kalshi_fee price num_contracts is_maker =
        .ok ((⌈(if is_maker then KALSHI_MAKER_FEE_MULTIPLIER else KALSHI_TAKER_FEE_MULTIPLIER) *
          (num_contracts : ℚ) * price * (1 - price) * 100⌉ : ℚ) / 100) ∧
      (∀ fee, calculate_kalshi_fee price num_contracts is_maker = .ok fee →
        (∃ k : ℤ, fee * 100 = (k : ℚ)) ∧
        (if is_maker then KALSHI_MAKER_FEE_MULTIPLIER else KALSHI_TAKER_FEE_MULTIPLIER) *
          (num_contracts : ℚ) * price * (1 - price) ≤ fee)) ∧
    ((price ≤ 0 ∨ 1 ≤ price ∨ num_contracts ≤ 0) →
      ∃ msg, calculate_kalshi_fee price num_contracts is_maker = .error msg) := by
  constructor
  · intro h1 h2 h3
    have hok := fee_ok price num_contracts is_maker h1 h2 h3
    rw [rat_ceil_eq_intCeil] at hok
    refine ⟨hok, ?_⟩
    intro fee hfee
    rw [hok] at hfee
    have hfe : fee = ((⌈(if is_maker then KALSHI_MAKER_FEE_MULTIPLIER else
        KALSHI_TAKER_FEE_MULTIPLIER) * (num_contracts : ℚ) * price * (1 - price) * 100⌉ : ℤ) : ℚ) / 100 :=
      (Except.ok.inj hfee).symm
    subst hfe
    constructor
    · exact ⟨_, div_mul_cancel₀ _ (by norm_num)⟩
    · set raw := (if is_maker then KALSHI_MAKER_FEE_MULTIPLIER else
        KALSHI_TAKER_FEE_MULTIPLIER) * (num_contracts : ℚ) * price * (1 - price) with hraw
      have hle : raw * 100 ≤ (⌈raw * 100⌉ : ℚ) := Int.le_ceil _
      have h100 : (0:ℚ) < 100 := by norm_num
      calc raw = raw * 100 / 100 := by field_simp
      _ ≤ (⌈raw * 100⌉ : ℚ) / 100 := (div_le_div_iff_of_pos_right h100).mpr hle
  · intro h
    unfold calculate_kalshi_fee
    by_cases hc : price ≤ 0 ∨ price ≥ 1
    · rw [if_pos hc]
      exact ⟨_, rfl⟩
    · rw [if_neg hc]
      have hn : num_contracts ≤ 0 := by
        push_neg at hc
        rcases h with h | h | h
        · exact absurd h (not_le.mpr hc.1)
        · exact absurd h (not_le.mpr hc.2)
        · exact h
      rw [if_pos hn]
      exact ⟨_, rfl⟩

/-- Witness for C1 at price 1/2, one taker contract. -/
theorem C1_fee_formula_witness :
    calculate_kalshi_fee (mkRat 1 2) 1 false =
      .ok ((⌈(if false then KALSHI_MAKER_FEE_MULTIPLIER else KALSHI_TAKER_FEE_MULTIPLIER) *
        ((1 : ℤ) : ℚ) * mkRat 1 2 * (1 - mkRat 1 2) * 100⌉ : ℚ) / 100) :=
  ((C1_fee_formula (mkRat 1 2) 1 false).1 (by with_unfolding_all decide)
    (by with_unfolding_all decide) (by decide)).1

/-- On in-range inputs the fee is at least one cent. -/
theorem fee_ge_cent (price : ℚ) (n : ℤ) (mk : Bool) (fee : ℚ)
    (h1 : 0 < price) (h2 : price < 1) (h3 : 0 < n)
    (h : calculate_kalshi_fee price n mk = .ok fee) : 1 / 100 ≤ fee := by
  rw [fee_ok price n mk h1 h2 h3] at h
  have hfe := (Except.ok.inj h).symm
  subst hfe
  rw [rat_ceil_eq_intCeil]
  have hn : (0:ℚ) < (n : ℚ) := by exact_mod_cast h3
  have hraw : 0 < (if mk then KALSHI_MAKER_FEE_MULTIPLIER else KALSHI_TAKER_FEE_MULTIPLIER) *
      (n : ℚ) * price * (1 - price) * 100 := by
    have hm := multiplier_pos mk
    have h1p : (0:ℚ) < 1 - price := by linarith
    have h100 : (0:ℚ) < 100 := by norm_num
    exact mul_pos (mul_pos (mul_pos (mul_pos hm hn) h1) h1p) h100
  have hceil : (0:ℤ) < ⌈(if mk then KALSHI_MAKER_FEE_MULTIPLIER else KALSHI_TAKER_FEE_MULTIPLIER) *
      (n : ℚ) * price * (1 - price) * 100⌉ := Int.ceil_pos.mpr hraw
  have h1le : (1:ℤ) ≤ ⌈(if mk then KALSHI_MAKER_FEE_MULTIPLIER else KALSHI_TAKER_FEE_MULTIPLIER) *
      (n : ℚ) * price * (1 - price) * 100⌉ := hceil
  have : (1:ℚ) ≤ (⌈(if mk then KALSHI_MAKER_FEE_MULTIPLIER else KALSHI_TAKER_FEE_MULTIPLIER) *
      (n : ℚ) * price * (1 - price) * 100⌉ : ℚ) := by exact_mod_cast h1le
  have h100 : (0:ℚ) < 100 := by norm_num
  exact (div_le_div_iff_of_pos_right h100).mpr this

/-- Bind on a successful `Except` computation reduces. -/
theorem ok_bind {α β : Type} (a : α) (f : α → Except String β) :
    (Except.ok a >>= f) = f a := rfl

/-- On in-range inputs `EdgeCalculation.calculate` succeeds and its fields
satisfy the branch equations of the source. -/
theorem calculate_ok (price prob : ℚ) (n : ℤ) (pos : String) (mk : Bool)
    (h1 : 0 < price) (h2 : price < 1) (h3 : 0 < n) :
    ∃ fee ec, calculate_kalshi_fee price n mk = .ok fee ∧
      EdgeCalculation.calculate price prob n pos mk = .ok ec ∧
      ec.position = pos ∧
      ec.fee_per_contract = fee / (n : ℚ) ∧
      (pos = "yes" →
        ec.gross_edge = prob - price ∧
        ec.effective_cost = price + fee / (n : ℚ) ∧
        ec.net_edge = prob - (price + fee / (n : ℚ))) ∧
      (pos ≠ "yes" →
        ec.gross_edge = (1 - prob) - (1 - price) ∧
        ec.effective_cost = (1 - price) + fee / (n : ℚ) ∧
        ec.net_edge = (1 - prob) - ((1 - price) + fee / (n : ℚ))) := by
  have hok := fee_ok price n mk h1 h2 h3
  cases hcalc : EdgeCalculation.calculate price prob n pos mk with
  | error e =>
    exfalso
    unfold EdgeCalculation.calculate at hcalc
    rw [hok, ok_bind] at hcalc
    by_cases hpos : pos = "yes"
    · rw [if_pos hpos] at hcalc
      exact Except.noConfusion hcalc
    · rw [if_neg hpos] at hcalc
      exact Except.noConfusion hcalc
  | ok ec =>
    unfold EdgeCalculation.calculate at hcalc
    rw [hok, ok_bind] at hcalc
    by_cases hpos : pos = "yes"
    · rw [if_pos hpos] at hcalc
      cases Except.ok.inj hcalc
      exact ⟨_, _, hok, rfl, hpos.symm ▸ rfl, rfl,
        fun _ => ⟨rfl, rfl, rfl⟩, fun hne => absurd hpos hne⟩
    · rw [if_neg hpos] at hcalc
      cases Except.ok.inj hcalc
      exact ⟨_, _, hok, rfl, rfl, rfl,
        fun he => absurd he hpos, fun _ => ⟨rfl, rfl, rfl⟩⟩

/-- C9: for every valid price p ∈ (0,1) and contract count n > 0, the fee
is strictly positive — at least one cent — because the raw fee
multiplier·n·p·(1−p) is strictly positive and is rounded up to a whole
cent; consequently every edge calculation has net_edge strictly below
gross_edge, never equal. -/
theorem C9_fee_at_least_cent (price prob : ℚ) (n : ℤ) (mk : Bool) (pos : String)
    (h1 : 0 < price) (h2 : price < 1) (h3 : 0 < n) :
    (∀ fee, calculate_kalshi_fee price n mk = .ok fee → 1 / 100 ≤ fee) ∧
    (∀ ec, EdgeCalculation.calculate price prob n pos mk = .ok ec →
      ec.net_edge < ec.gross_edge) := by
  constructor
  · exact fun fee h => fee_ge_cent price n mk fee h1 h2 h3 h
  · intro ec hec
    obtain ⟨fee, ec', hfee, hec', _, hfpc, hyes, hno⟩ :=
      calculate_ok price prob n pos mk h1 h2 h3
    have he : ec' = ec := Except.ok.inj (hec'.symm.trans hec)
    subst he
    have hfp : 0 < fee / (n : ℚ) := by
      have hc := fee_ge_cent price n mk fee h1 h2 h3 hfee
      have hn : (0:ℚ) < (n : ℚ) := by exact_mod_cast h3
      have hfpos : (0:ℚ) < fee := lt_of_lt_of_le (by norm_num) hc
      exact div_pos hfpos hn
    by_cases hpos : pos = "yes"
    · obtain ⟨hg, _, hne⟩ := hyes hpos
      rw [hg, hne]
      linarith
    · obtain ⟨hg, _, hne⟩ := hno hpos
      rw [hg, hne]
      linarith

/-- Witness for C9 at price 1/2, consensus 3/5, 100 taker contracts. -/
theorem C9_fee_at_least_cent_witness :
    (∀ fee, calculate_kalshi_fee (mkRat 1 2) 100 false = .ok fee → 1 / 100 ≤ fee) ∧
    (∀ ec, EdgeCalculation.calculate (mkRat 1 2) (mkRat 3 5) 100 "yes" false = .ok ec →
      ec.net_edge < ec.gross_edge) :=
  C9_fee_at_least_cent (mkRat 1 2) (mkRat 3 5) 100 false "yes"
    (by with_unfolding_all decide) (by with_unfolding_all decide) (by decide)

/-- C2: `remove_vig` raises a domain error iff the probability sum is not
positive; otherwise it returns the proportionally scaled pair, whose
components sum to 1 exactly (hence within tolerance 1e-9) whenever both
inputs are positive. The model is a pure function of its arguments. -/
theorem C2_remove_vig (prob_a prob_b : ℚ) :
    ((∃ msg, remove_vig prob_a prob_b = .error msg) ↔ prob_a + prob_b ≤ 0) ∧
    (0 < prob_a + prob_b →
      remove_vig prob_a prob_b = .ok (prob_a / (prob_a + prob_b), prob_b / (prob_a + prob_b))) ∧
    (0 < prob_a → 0 < prob_b → ∀ r, remove_vig prob_a prob_b = .ok r →
      |r.1 + r.2 - 1| ≤ 1 / 1000000000) := by
  unfold remove_vig
  by_cases h : prob_a + prob_b ≤ 0
  · rw [if_pos h]
    refine ⟨⟨fun _ => h, fun _ => ⟨_, rfl⟩⟩, fun h0 => absurd h (not_le.mpr h0), ?_⟩
    intro _ _ r hr
    exact Except.noConfusion hr
  · rw [if_neg h]
    push_neg at h
    refine ⟨⟨fun ⟨msg, hm⟩ => Except.noConfusion hm, fun hc => absurd hc (not_le.mpr h)⟩,
      fun _ => rfl, ?_⟩
    intro _ _ r hr
    have hre := (Except.ok.inj hr).symm
    subst hre
    have hsum : prob_a / (prob_a + prob_b) + prob_b / (prob_a + prob_b) = 1 := by
      rw [div_add_div_same, div_self (ne_of_gt h)]
    simp only [hsum]
    norm_num

/-- Witness for C2 with both probabilities 11/21 (a −110/−110 book). -/
theorem C2_remove_vig_witness :
    remove_vig (mkRat 11 21) (mkRat 11 21) =
      .ok (mkRat 11 21 / (mkRat 11 21 + mkRat 11 21), mkRat 11 21 / (mkRat 11 21 + mkRat 11 21)) :=
  (C2_remove_vig (mkRat 11 21) (mkRat 11 21)).2.1 (by with_unfolding_all decide)

/-- Counterexample to C7 as stated: at the integer odds value 0 the code
returns probability 0, which does not lie strictly between 0 and 1. -/
theorem C7_counterexample :
    american_to_implied_prob 0 = 0 ∧ ¬(0 < american_to_implied_prob 0) := by
  constructor
  · with_unfolding_all decide
  · with_unfolding_all decide

/-- C7 (amended): for every **nonzero** integer odds value v,
`american_to_implied_prob` returns 100/(v+100) for positive v and
|v|/(|v|+100) for negative v, and the result lies strictly in (0,1);
the function is monotone within each sign class: more extreme negative
(favorite) odds give larger probabilities, larger positive (underdog)
odds give smaller probabilities. -/
theorem C7_implied_prob (v w : ℤ) :
    (v ≠ 0 →
      (0 < v → american_to_implied_prob v = 100 / ((v : ℚ) + 100)) ∧
      (v < 0 → american_to_implied_prob v = |(v : ℚ)| / (|(v : ℚ)| + 100)) ∧
      0 < american_to_implied_prob v ∧ american_to_implied_prob v < 1) ∧
    (v < w → w < 0 → american_to_implied_prob w < american_to_implied_prob v) ∧
    (0 < v → v < w → american_to_implied_prob w < american_to_implied_prob v) := by
  have hval : ∀ u : ℤ, u < 0 →
      american_to_implied_prob u = (-(u:ℚ)) / (-(u:ℚ) + 100) := by
    intro u hu
    unfold american_to_implied_prob
    rw [if_neg (by omega)]
    have huq : (u:ℚ) < 0 := by exact_mod_cast hu
    rw [abs_of_neg huq]
  have hvalp : ∀ u : ℤ, 0 < u →
      american_to_implied_prob u = 100 / ((u:ℚ) + 100) := by
    intro u hu
    unfold american_to_implied_prob
    rw [if_pos (by omega)]
  refine ⟨?_, ?_, ?_⟩
  · intro hv
    refine ⟨fun hp => hvalp v hp, ?_, ?_, ?_⟩
    · intro hn
      rw [hval v hn]
      have hvq : (v:ℚ) < 0 := by exact_mod_cast hn
      rw [abs_of_neg hvq]
    · rcases lt_or_gt_of_ne hv with hn | hp
      · rw [hval v hn]
        have hvq : (v:ℚ) < 0 := by exact_mod_cast hn
        exact div_pos (by linarith) (by linarith)
      · rw [hvalp v hp]
        have hvq : (0:ℚ) < (v:ℚ) := by exact_mod_cast hp
        exact div_pos (by norm_num) (by linarith)
    · rcases lt_or_gt_of_ne hv with hn | hp
      · rw [hval v hn]
        have hvq : (v:ℚ) < 0 := by exact_mod_cast hn
        rw [div_lt_one (by linarith)]
        linarith
      · rw [hvalp v hp]
        have hvq : (0:ℚ) < (v:ℚ) := by exact_mod_cast hp
        rw [div_lt_one (by linarith)]
        linarith
  · intro hvw hw
    have hv : v < 0 := lt_trans hvw hw
    rw [hval v hv, hval w hw]
    have hvq : (v:ℚ) < 0 := by exact_mod_cast hv
    have hwq : (w:ℚ) < 0 := by exact_mod_cast hw
    have hvwq : (v:ℚ) < (w:ℚ) := by exact_mod_cast hvw
    rw [div_lt_div_iff₀ (by linarith) (by linarith)]
    nlinarith
  · intro hv hvw
    have hw : 0 < w := lt_trans hv hvw
    rw [hvalp v hv, hvalp w hw]
    have hvq : (0:ℚ) < (v:ℚ) := by exact_mod_cast hv
    have hvwq : (v:ℚ) < (w:ℚ) := by exact_mod_cast hvw
    rw [div_lt_div_iff₀ (by linarith) (by linarith)]
    nlinarith

/-- Witness for C7 (amended) at odds −110 (formula and range) and the
monotone pair −115 < −110 < 0. -/
theorem C7_implied_prob_witness :
    (american_to_implied_prob (-110) = |((-110:ℤ) : ℚ)| / (|((-110:ℤ) : ℚ)| + 100) ∧
      0 < american_to_implied_prob (-110)) ∧
    american_to_implied_prob (-110) < american_to_implied_prob (-115) :=
  ⟨⟨((C7_implied_prob (-110) 0).1 (by decide)).2.1 (by decide),
    ((C7_implied_prob (-110) 0).1 (by decide)).2.2.1⟩,
   (C7_implied_prob (-115) (-110)).2.1 (by decide) (by decide)⟩

/-- C4: for every valid price in (0,1), any consensus probability and any
positive contract count, the YES edge calculation has
gross_edge = consensus − price, net_edge = consensus − effective cost
(price plus per-contract fee), and net_edge ≤ gross_edge. -/
theorem C4_net_le_gross (price prob : ℚ) (n : ℤ) (mk : Bool)
    (h1 : 0 < price) (h2 : price < 1) (h3 : 0 < n) :
    ∃ ec, EdgeCalculation.calculate price prob n "yes" mk = .ok ec ∧
      ec.gross_edge = prob - price ∧
      ec.effective_cost = price + ec.fee_per_contract ∧
      ec.net_edge = prob - ec.effective_cost ∧
      ec.net_edge ≤ ec.gross_edge := by
  obtain ⟨fee, ec, hfee, hec, _, hfpc, hyes, _⟩ :=
    calculate_ok price prob n "yes" mk h1 h2 h3
  obtain ⟨hg, hcost, hne⟩ := hyes rfl
  refine ⟨ec, hec, hg, by rw [hcost, hfpc], by rw [hne, hcost], ?_⟩
  have hfp : 0 < fee / (n : ℚ) := by
    have hc := fee_ge_cent price n mk fee h1 h2 h3 hfee
    have hn : (0:ℚ) < (n : ℚ) := by exact_mod_cast h3
    have hfpos : (0:ℚ) < fee := lt_of_lt_of_le (by norm_num) hc
    exact div_pos hfpos hn
  rw [hg, hne]
  linarith

/-- Witness for C4 at price 9/20 (45¢), consensus 11/20, 100 contracts. -/
theorem C4_net_le_gross_witness :
    ∃ ec, EdgeCalculation.calculate (mkRat 9 20) (mkRat 11 20) 100 "yes" false = .ok ec ∧
      ec.gross_edge = mkRat 11 20 - mkRat 9 20 ∧
      ec.effective_cost = mkRat 9 20 + ec.fee_per_contract ∧
      ec.net_edge = mkRat 11 20 - ec.effective_cost ∧
      ec.net_edge ≤ ec.gross_edge :=
  C4_net_le_gross (mkRat 9 20) (mkRat 11 20) 100 false
    (by with_unfolding_all decide) (by with_unfolding_all decide) (by decide)

/-- A successful `Except` `mapM` computes the pointwise total function. -/
theorem mapM_ok_eq_map {α β : Type} (f : α → Except String β) (g : α → β)
    (hfg : ∀ x y, f x = .ok y → y = g x) :
    ∀ (l : List α) (ys : List β), l.mapM f = .ok ys → ys = l.map g := by
  intro l
  induction l with
  | nil =>
    intro ys h
    rw [List.mapM_nil] at h
    exact (Except.ok.inj h).symm
  | cons a l ih =>
    intro ys h
    rw [List.mapM_cons] at h
    cases hfa : f a with
    | error e => rw [hfa] at h; exact Except.noConfusion h
    | ok y =>
      rw [hfa, ok_bind] at h
      cases hml : l.mapM f with
      | error e => rw [hml] at h; exact Except.noConfusion h
      | ok ys' =>
        rw [hml, ok_bind] at h
        have hys : y :: ys' = ys := Except.ok.inj h
        subst hys
        rw [List.map_cons, ← hfg a y hfa, ← ih ys' hml]

/-- A successful `remove_vig` on a quote's implied probabilities returns
exactly `devig_pair`. -/
theorem remove_vig_ok_eq (q : ℤ × ℤ) (pr : ℚ × ℚ)
    (h : remove_vig (american_to_implied_prob q.1) (american_to_implied_prob q.2) = .ok pr) :
    pr = devig_pair q := by
  rw [remove_vig] at h
  by_cases hc : american_to_implied_prob q.1 + american_to_implied_prob q.2 ≤ 0
  · rw [if_pos hc] at h
    exact Except.noConfusion h
  · rw [if_neg hc] at h
    exact (Except.ok.inj h).symm

/-- Rebuild a record equality for `process_vegas_event` from a tuple-level
evaluation (the derived record-equality decision procedure does not reduce
well in the kernel, the tuple projection does). -/
theorem consensus_repack (x : Except String (Option ConsensusResult)) (t : ℚ × ℚ × ℕ × ℚ × ℚ)
    (h : x.map (fun o => o.map fun c =>
      (c.home_prob, c.away_prob, c.num_bookmakers, c.home_std_sq, c.away_std_sq)) = .ok (some t)) :
    x = .ok (some ⟨t.1, t.2.1, t.2.2.1, t.2.2.2.1, t.2.2.2.2⟩) := by
  cases x with
  | error e => simp [Except.map] at h
  | ok o =>
    cases o with
    | none => simp [Except.map] at h
    | some c =>
      simp only [Except.map, Option.map_some] at h
      have ht : t = (c.home_prob, c.away_prob, c.num_bookmakers, c.home_std_sq, c.away_std_sq) :=
        (Option.some.inj (Except.ok.inj h)).symm
      subst ht
      rfl

/-- C5: whenever the consensus builder returns a result, each side's
probability is the median (not the mean) of the de-vigged probabilities of
the qualifying quotes, the reported bookmaker count is the number of
contributing quotes, and each side's dispersion is the sample standard
deviation of those probabilities (carried here as its square, the sample
variance), defined as 0 when fewer than two samples contribute. -/
theorem C5_consensus_median (min_bm : ℕ) (e : VegasEvent) (r : ConsensusResult)
    (h : process_vegas_event min_bm e = .ok (some r)) :
    r.home_prob = py_median (((h2h_quotes e).map devig_pair).map Prod.fst) ∧
    r.away_prob = py_median (((h2h_quotes e).map devig_pair).map Prod.snd) ∧
    r.num_bookmakers = (h2h_quotes e).length ∧
    r.home_std_sq = (if 1 < (h2h_quotes e).length then
      py_stdev_sq (((h2h_quotes e).map devig_pair).map Prod.fst) else 0) ∧
    r.away_std_sq = (if 1 < (h2h_quotes e).length then
      py_stdev_sq (((h2h_quotes e).map devig_pair).map Prod.snd) else 0) := by
  unfold process_vegas_event at h
  by_cases hlen : e.bookmakers.length < min_bm
  · rw [if_pos hlen] at h
    exact Option.noConfusion (Except.ok.inj h)
  · rw [if_neg hlen] at h
    cases hml : (h2h_quotes e).mapM (fun q =>
        remove_vig (american_to_implied_prob q.1) (american_to_implied_prob q.2)) with
    | error msg => rw [hml] at h; exact Except.noConfusion h
    | ok devigged =>
      rw [hml, ok_bind] at h
      have hdev : devigged = (h2h_quotes e).map devig_pair :=
        mapM_ok_eq_map _ devig_pair (fun q pr hq => remove_vig_ok_eq q pr hq) _ _ hml
      subst hdev
      by_cases hemp : (((h2h_quotes e).map devig_pair).map (·.1)).isEmpty
      · rw [if_pos hemp] at h
        exact Option.noConfusion (Except.ok.inj h)
      · rw [if_neg hemp] at h
        have hr := (Option.some.inj (Except.ok.inj h)).symm
        subst hr
        have hl1 : (((h2h_quotes e).map devig_pair).map (·.1)).length = (h2h_quotes e).length := by
          simp
        have hl2 : (((h2h_quotes e).map devig_pair).map (·.2)).length = (h2h_quotes e).length := by
          simp
        refine ⟨rfl, rfl, hl1, ?_, ?_⟩
        · show (if 1 < (((h2h_quotes e).map devig_pair).map (·.1)).length then _ else 0) = _
          rw [hl1]
        · show (if 1 < (((h2h_quotes e).map devig_pair).map (·.2)).length then _ else 0) = _
          rw [hl2]

/-- Witness for C5 on `c5_event`: median 1/2 per side, 3 contributing
quotes, zero dispersion. -/
theorem C5_consensus_median_witness :
    (mkRat 1 2 : ℚ) = py_median (((h2h_quotes c5_event).map devig_pair).map Prod.fst) ∧
    (3 : ℕ) = (h2h_quotes c5_event).length ∧
    (0 : ℚ) = (if 1 < (h2h_quotes c5_event).length then
      py_stdev_sq (((h2h_quotes c5_event).map devig_pair).map Prod.fst) else 0) := by
  have h : process_vegas_event 3 c5_event =
      .ok (some ⟨mkRat 1 2, mkRat 1 2, 3, 0, 0⟩) :=
    consensus_repack _ (mkRat 1 2, mkRat 1 2, 3, 0, 0) (by with_unfolding_all decide)
  obtain ⟨h1, _, h3, h4, _⟩ := C5_consensus_median 3 c5_event ⟨mkRat 1 2, mkRat 1 2, 3, 0, 0⟩ h
  exact ⟨h1, h3, h4⟩

/-- Counterexample to C3 as stated: `c3_event` lists 3 bookmakers (the
configured minimum) but only **one** of them quotes the exact home/away
pair, yet the consensus builder returns a result (with contributing count
1) instead of no result. -/
theorem C3_counterexample :
    (h2h_quotes c3_event).length = 1 ∧
    process_vegas_event MIN_BOOKMAKERS c3_event =
      .ok (some ⟨mkRat 1 2, mkRat 1 2, 1, 0, 0⟩) :=
  ⟨by decide,
   consensus_repack _ (mkRat 1 2, mkRat 1 2, 1, 0, 0) (by with_unfolding_all decide)⟩

/-- C3 (amended): the consensus builder returns a result only when the
event **lists** at least the configured minimum number of bookmakers
(default 3) and at least one of them quotes the exact home/away outcome
pair; when the event lists fewer bookmakers, or none quotes the pair, it
returns no result (None) rather than raising, and the edge engine then
produces zero opportunities for that event. -/
theorem C3_consensus_gate (min_bm : ℕ) (e : VegasEvent) :
    (e.bookmakers.length < min_bm ∨ h2h_quotes e = [] →
      process_vegas_event min_bm e = .ok none) ∧
    (∀ r, process_vegas_event min_bm e = .ok (some r) →
      min_bm ≤ e.bookmakers.length ∧ h2h_quotes e ≠ []) ∧
    (∀ min_edge acc mtch, mtch.vegas_event = e →
      process_vegas_event min_bm e = .ok none →
      process_match min_edge min_bm acc mtch = .ok acc) := by
  refine ⟨?_, ?_, ?_⟩
  · intro hcase
    unfold process_vegas_event
    by_cases hlen : e.bookmakers.length < min_bm
    · rw [if_pos hlen]
      rfl
    · rw [if_neg hlen]
      have hq : h2h_quotes e = [] := by
        rcases hcase with hc | hc
        · exact absurd hc hlen
        · exact hc
      rw [hq, List.mapM_nil]
      rfl
  · intro r hr
    constructor
    · by_contra hlen
      push_neg at hlen
      unfold process_vegas_event at hr
      rw [if_pos hlen] at hr
      exact Option.noConfusion (Except.ok.inj hr)
    · intro hq
      unfold process_vegas_event at hr
      by_cases hlen : e.bookmakers.length < min_bm
      · rw [if_pos hlen] at hr
        exact Option.noConfusion (Except.ok.inj hr)
      · rw [if_neg hlen, hq, List.mapM_nil] at hr
        exact Option.noConfusion (Except.ok.inj hr)
  · intro min_edge acc mtch hme hnone
    unfold process_match
    rw [hme, hnone]
    rfl

/-- Witness for C3 (amended): an event listing two bookmakers is below the
default minimum of three, so the builder returns None. -/
theorem C3_consensus_gate_witness :
    process_vegas_event MIN_BOOKMAKERS
      { id := "ev-w", sport_key := "basketball_nba", home_team := "H", away_team := "A",
        bookmakers := [{ markets := [] }, { markets := [] }] } = .ok none :=
  (C3_consensus_gate MIN_BOOKMAKERS
    { id := "ev-w", sport_key := "basketball_nba", home_team := "H", away_team := "A",
      bookmakers := [{ markets := [] }, { markets := [] }] }).1 (Or.inl (by decide))

/-- Every opportunity `check_home_side` adds is `opp_good`. -/
theorem check_home_side_spec (min_edge : ℚ) (vp : ConsensusResult) (mtch : MatchResult)
    (acc acc' : List ValueOpportunity)
    (h : check_home_side min_edge vp mtch acc = .ok acc') :
    ∀ o ∈ acc', o ∈ acc ∨ opp_good min_edge o := by
  unfold check_home_side at h
  cases hhm : mtch.kalshi_home_market with
  | none =>
    rw [hhm] at h
    have ha := Except.ok.inj h
    subst ha
    exact fun o ho => Or.inl ho
  | some hm =>
    rw [hhm] at h
    dsimp only at h
    by_cases hpr : 0 < (hm.yes_ask : ℚ) / 100 ∧ (hm.yes_ask : ℚ) / 100 < 1
    · rw [if_pos hpr] at h
      cases hc : EdgeCalculation.calculate ((hm.yes_ask : ℚ) / 100) vp.home_prob 100 "yes" false with
      | error e =>
        rw [hc] at h
        exact Except.noConfusion h
      | ok c =>
        rw [hc, ok_bind] at h
        by_cases hge : c.net_edge ≥ min_edge
        · rw [if_pos hge] at h
          have ha := Except.ok.inj h
          subst ha
          intro o ho
          rcases List.mem_append.mp ho with hin | hsing
          · exact Or.inl hin
          · right
            have ho' := List.mem_singleton.mp hsing
            subst ho'
            obtain ⟨fee, ec, hfee, hec, _, hfpc, hyes, _⟩ :=
              calculate_ok ((hm.yes_ask : ℚ) / 100) vp.home_prob 100 "yes" false
                hpr.1 hpr.2 (by norm_num)
            have hce : c = ec := Except.ok.inj (hc.symm.trans hec)
            subst hce
            obtain ⟨hg, _, hne⟩ := hyes rfl
            refine ⟨hge, rfl, Or.inl rfl, fun _ => ⟨hg, ?_⟩, fun hcontra => ?_⟩
            · show c.net_edge = c.gross_edge - c.fee_per_contract
              rw [hne, hg, hfpc]
              ring
            · exact absurd hcontra (by simp [mk_home_opp])
        · rw [if_neg hge] at h
          have ha := Except.ok.inj h
          subst ha
          exact fun o ho => Or.inl ho
    · rw [if_neg hpr] at h
      have ha := Except.ok.inj h
      subst ha
      exact fun o ho => Or.inl ho

/-- Every opportunity `check_away_side` adds is `opp_good`. -/
theorem check_away_side_spec (min_edge : ℚ) (vp : ConsensusResult) (mtch : MatchResult)
    (acc acc' : List ValueOpportunity)
    (h : check_away_side min_edge vp mtch acc = .ok acc') :
    ∀ o ∈ acc', o ∈ acc ∨ opp_good min_edge o := by
  unfold check_away_side at h
  cases hhm : mtch.kalshi_away_market with
  | none =>
    rw [hhm] at h
    have ha := Except.ok.inj h
    subst ha
    exact fun o ho => Or.inl ho
  | some am =>
    rw [hhm] at h
    dsimp only at h
    by_cases hpr : 0 < (am.yes_ask : ℚ) / 100 ∧ (am.yes_ask : ℚ) / 100 < 1
    · rw [if_pos hpr] at h
      cases hc : EdgeCalculation.calculate ((am.yes_ask : ℚ) / 100) vp.away_prob 100 "yes" false with
      | error e =>
        rw [hc] at h
        exact Except.noConfusion h
      | ok c =>
        rw [hc, ok_bind] at h
        by_cases hge : c.net_edge ≥ min_edge
        · rw [if_pos hge] at h
          have ha := Except.ok.inj h
          subst ha
          intro o ho
          rcases List.mem_append.mp ho with hin | hsing
          · exact Or.inl hin
          · right
            have ho' := List.mem_singleton.mp hsing
            subst ho'
            obtain ⟨fee, ec, hfee, hec, _, hfpc, hyes, _⟩ :=
              calculate_ok ((am.yes_ask : ℚ) / 100) vp.away_prob 100 "yes" false
                hpr.1 hpr.2 (by norm_num)
            have hce : c = ec := Except.ok.inj (hc.symm.trans hec)
            subst hce
            obtain ⟨hg, _, hne⟩ := hyes rfl
            refine ⟨hge, rfl, Or.inr rfl, fun hcontra => ?_, fun _ => ⟨hg, ?_⟩⟩
            · exact absurd hcontra (by simp [mk_away_opp])
            · show c.net_edge = c.gross_edge - c.fee_per_contract
              rw [hne, hg, hfpc]
              ring
        · rw [if_neg hge] at h
          have ha := Except.ok.inj h
          subst ha
          exact fun o ho => Or.inl ho
    · rw [if_neg hpr] at h
      have ha := Except.ok.inj h
      subst ha
      exact fun o ho => Or.inl ho

/-- Every opportunity `process_match` adds is `opp_good`. -/
theorem process_match_spec (min_edge : ℚ) (min_bm : ℕ) (acc : List ValueOpportunity)
    (mtch : MatchResult) (acc' : List ValueOpportunity)
    (h : process_match min_edge min_bm acc mtch = .ok acc') :
    ∀ o ∈ acc', o ∈ acc ∨ opp_good min_edge o := by
  unfold process_match at h
  cases hv : process_vegas_event min_bm mtch.vegas_event with
  | error e =>
    rw [hv] at h
    exact Except.noConfusion h
  | ok vp? =>
    rw [hv, ok_bind] at h
    cases vp? with
    | none =>
      have ha := Except.ok.inj h
      subst ha
      exact fun o ho => Or.inl ho
    | some vp =>
      dsimp only at h
      cases hh : check_home_side min_edge vp mtch acc with
      | error e =>
        rw [hh] at h
        exact Except.noConfusion h
      | ok acc1 =>
        rw [hh, ok_bind] at h
        intro o ho
        rcases check_away_side_spec min_edge vp mtch acc1 acc' h o ho with h1 | hgood
        · rcases check_home_side_spec min_edge vp mtch acc acc1 hh o h1 with h2 | hgood
          · exact Or.inl h2
          · exact Or.inr hgood
        · exact Or.inr hgood

/-- An `Except` fold preserves any invariant its step preserves. -/
theorem foldlM_invariant {α β : Type} (P : β → Prop) (f : β → α → Except String β)
    (hstep : ∀ acc x acc', P acc → f acc x = .ok acc' → P acc') :
    ∀ (l : List α) (init out : β), P init → l.foldlM f init = .ok out → P out := by
  intro l
  induction l with
  | nil =>
    intro init out hP h
    rw [List.foldlM_nil] at h
    exact (Except.ok.inj h) ▸ hP
  | cons a l ih =>
    intro init out hP h
    rw [List.foldlM_cons] at h
    cases hfa : f init a with
    | error e =>
      rw [hfa] at h
      exact Except.noConfusion h
    | ok acc' =>
      rw [hfa, ok_bind] at h
      exact ih acc' out (hstep init a acc' hP hfa) h

/-- Everything the pipeline's fold accumulates from the empty list is
`opp_good`. -/
theorem find_game_winner_value_good (pr fr : String → String → ℚ)
    (min_edge : ℚ) (min_bm : ℕ) (events : List VegasEvent) (markets : List KalshiMarket)
    (opps : List ValueOpportunity)
    (h : find_game_winner_value pr fr min_edge min_bm events markets = .ok opps) :
    (∀ o ∈ opps, opp_good min_edge o) ∧ List.Sorted desc_net_edge opps := by
  unfold find_game_winner_value at h
  dsimp only at h
  cases hf : (EventMatcher.match_game_winner_markets pr fr events markets).foldlM
      (process_match min_edge min_bm) [] with
  | error e =>
    rw [hf] at h
    exact Except.noConfusion h
  | ok l =>
    rw [hf, ok_bind] at h
    have hl := Except.ok.inj h
    subst hl
    constructor
    · intro o ho
      have hol : o ∈ l := (List.perm_insertionSort desc_net_edge l).mem_iff.mp ho
      have hP : ∀ o ∈ l, opp_good min_edge o :=
        foldlM_invariant (fun acc => ∀ o ∈ acc, opp_good min_edge o)
          (process_match min_edge min_bm)
          (fun acc x acc' hacc hstep o ho => by
            rcases process_match_spec min_edge min_bm acc x acc' hstep o ho with hin | hgood
            · exact hacc o hin
            · exact hgood)
          _ [] l (fun o ho => absurd ho (List.not_mem_nil o)) hf
      exact hP o hol
    · exact List.sorted_insertionSort desc_net_edge l

/-- C6: the list the edge engine returns contains only opportunities whose
net edge is at least the configured minimum (`MIN_NET_EDGE = 0.02 = 2%` by
default), and it is sorted in descending order of net edge. -/
theorem C6_threshold_and_order (pr fr : String → String → ℚ)
    (min_edge : ℚ) (min_bm : ℕ) (events : List VegasEvent) (markets : List KalshiMarket)
    (opps : List ValueOpportunity)
    (h : find_game_winner_value pr fr min_edge min_bm events markets = .ok opps) :
    (∀ o ∈ opps, min_edge ≤ o.net_edge) ∧
    List.Sorted (fun a b => b.net_edge ≤ a.net_edge) opps ∧
    MIN_NET_EDGE = 2 / 100 := by
  obtain ⟨hgood, hsorted⟩ := find_game_winner_value_good pr fr min_edge min_bm events markets opps h
  exact ⟨fun o ho => (hgood o ho).1, hsorted, by norm_num [MIN_NET_EDGE]⟩

/-- Witness for C6 on the empty snapshot. -/
theorem C6_threshold_and_order_witness :
    (∀ o ∈ ([] : List ValueOpportunity), MIN_NET_EDGE ≤ o.net_edge) ∧
    List.Sorted (fun a b => b.net_edge ≤ a.net_edge) ([] : List ValueOpportunity) ∧
    MIN_NET_EDGE = 2 / 100 :=
  C6_threshold_and_order zero_score zero_score MIN_NET_EDGE MIN_BOOKMAKERS [] [] [] rfl

/-- C10: every opportunity the pipeline emits is a YES recommendation —
home and away sides are both evaluated as YES positions against the
respective side's own listing ask price, and the edge fields satisfy the
YES-branch equations (gross = consensus − price, net = gross − fee per
contract); the NO branch is never taken by the pipeline. -/
theorem C10_always_yes (pr fr : String → String → ℚ)
    (min_edge : ℚ) (min_bm : ℕ) (events : List VegasEvent) (markets : List KalshiMarket)
    (opps : List ValueOpportunity)
    (h : find_game_winner_value pr fr min_edge min_bm events markets = .ok opps) :
    ∀ o ∈ opps, o.recommended_position = "yes" ∧
      (o.recommended_team = "home" ∨ o.recommended_team = "away") ∧
      (o.recommended_team = "home" →
        o.gross_edge = o.vegas_home_prob - o.kalshi_home_price ∧
        o.net_edge = o.gross_edge - o.fee_impact) ∧
      (o.recommended_team = "away" →
        o.gross_edge = o.vegas_away_prob - o.kalshi_away_price ∧
        o.net_edge = o.gross_edge - o.fee_impact) := by
  obtain ⟨hgood, _⟩ := find_game_winner_value_good pr fr min_edge min_bm events markets opps h
  exact fun o ho => ⟨(hgood o ho).2.1, (hgood o ho).2.2.1, (hgood o ho).2.2.2.1, (hgood o ho).2.2.2.2⟩

/-- Witness for C10 on the empty snapshot. -/
theorem C10_always_yes_witness :
    find_game_winner_value zero_score zero_score MIN_NET_EDGE MIN_BOOKMAKERS [] [] = .ok [] ∧
    (∀ o ∈ ([] : List ValueOpportunity), o.recommended_position = "yes" ∧
      (o.recommended_team = "home" ∨ o.recommended_team = "away") ∧
      (o.recommended_team = "home" →
        o.gross_edge = o.vegas_home_prob - o.kalshi_home_price ∧
        o.net_edge = o.gross_edge - o.fee_impact) ∧
      (o.recommended_team = "away" →
        o.gross_edge = o.vegas_away_prob - o.kalshi_away_price ∧
        o.net_edge = o.gross_edge - o.fee_impact)) :=
  ⟨rfl, C10_always_yes zero_score zero_score MIN_NET_EDGE MIN_BOOKMAKERS [] [] [] rfl⟩

/-- With nonnegative fuzzy scores, a qualifying candidate's combined score
is strictly positive (at least 100 via containment bonuses, at least 120
via the double fuzzy threshold, at least 160 via the college paths). -/
theorem elig_score_pos (pr fr : String → String → ℚ) (hpr : ∀ a b, 0 ≤ pr a b)
    (sk ht aw : String) (c : String × KalshiGame)
    (h : is_eligible pr fr sk ht aw c = true) :
    0 < cand_score pr fr sk ht aw c := by
  have hq : (eval_candidate pr fr sk ht aw c).qualifies = true := by
    unfold is_eligible at h
    simp only [Bool.and_eq_true] at h
    exact h.1
  unfold cand_score
  unfold eval_candidate at hq ⊢
  by_cases hcol : py_contains (py_lower sk) "ncaa" = true
  · rw [if_pos hcol] at hq ⊢
    dsimp only at hq ⊢
    unfold match_college_teams at hq ⊢
    set hs := pr (extract_college_school_name ht)
      (py_replace (py_replace (py_replace (py_lower c.2.title) "st." "st") "'s" "s") "'" "") with hhs
    set as := pr (extract_college_school_name aw)
      (py_replace (py_replace (py_replace (py_lower c.2.title) "st." "st") "'s" "s") "'" "") with has
    have hs0 : 0 ≤ hs := hpr _ _
    have as0 : 0 ≤ as := hpr _ _
    set hin := py_contains
      (py_replace (py_replace (py_replace (py_lower c.2.title) "st." "st") "'s" "s") "'" "")
      (extract_college_school_name ht) ||
      (college_map_get (get_college_abbrev ht)).any fun name =>
        py_contains
          (py_replace (py_replace (py_replace (py_lower c.2.title) "st." "st") "'s" "s") "'" "")
          (py_lower name) with hhin
    set ain := py_contains
      (py_replace (py_replace (py_replace (py_lower c.2.title) "st." "st") "'s" "s") "'" "")
      (extract_college_school_name aw) ||
      (college_map_get (get_college_abbrev aw)).any fun name =>
        py_contains
          (py_replace (py_replace (py_replace (py_lower c.2.title) "st." "st") "'s" "s") "'" "")
          (py_lower name) with hain
    by_cases h1 : (hin && ain) = true
    · rw [if_pos h1] at hq ⊢
      norm_num
    · rw [if_neg h1] at hq ⊢
      by_cases h2 : hs ≥ 80 ∧ as ≥ 80
      · rw [if_pos h2] at hq ⊢
        dsimp only
        linarith [h2.1, h2.2]
      · rw [if_neg h2] at hq ⊢
        by_cases h3 : ((hin || decide (hs ≥ 85)) && (ain || decide (as ≥ 85))) = true
        · rw [if_pos h3] at hq ⊢
          dsimp only
          simp only [Bool.and_eq_true, Bool.or_eq_true, decide_eq_true_eq] at h3
          obtain ⟨h3h, h3a⟩ := h3
          have hmax : (85:ℚ) ≤ max hs as := by
            rcases h3h with hh | hh
            · have hna : ain = false := by
                cases hha : ain
                · rfl
                · exact absurd (by rw [hh, hha]; rfl) h1
              rcases h3a with ha | ha
              · rw [hna] at ha
                exact Bool.noConfusion ha
              · exact le_trans ha (le_max_right hs as)
            · exact le_trans hh (le_max_left hs as)
          linarith
        · rw [if_neg h3] at hq
          exact Bool.noConfusion hq
  · rw [if_neg hcol] at hq ⊢
    dsimp only at hq ⊢
    set hs := pr (normalize_team_name ht) (py_lower c.2.title) with hhs
    set as := pr (normalize_team_name aw) (py_lower c.2.title) with has
    have hs0 : 0 ≤ hs := hpr _ _
    have as0 : 0 ≤ as := hpr _ _
    simp only [Bool.or_eq_true, Bool.and_eq_true, decide_eq_true_eq] at hq
    rcases hq with ⟨hh, ha⟩ | ⟨hh', ha'⟩
    · have hc1 : (py_contains (py_lower c.2.title) (normalize_team_name ht) ||
          py_contains (py_replace (py_lower c.2.title) " " "") (get_team_abbrev ht) ||
          py_contains (py_lower c.2.title) (last_word (normalize_team_name ht))) = true := by
        simp only [Bool.or_eq_true]
        exact hh
      have hc2 : (py_contains (py_lower c.2.title) (normalize_team_name aw) ||
          py_contains (py_replace (py_lower c.2.title) " " "") (get_team_abbrev aw) ||
          py_contains (py_lower c.2.title) (last_word (normalize_team_name aw))) = true := by
        simp only [Bool.or_eq_true]
        exact ha
      rw [if_pos hc1, if_pos hc2]
      unfold calculate_team_match_score
      have p1 := hpr (normalize_team_name ht) (py_lower c.2.title)
      have p2 := hpr (normalize_team_name aw) (py_lower c.2.title)
      linarith
    · unfold calculate_team_match_score at hh' ha' ⊢
      have p1 := hpr (normalize_team_name ht) (py_lower c.2.title)
      have p2 := hpr (normalize_team_name aw) (py_lower c.2.title)
      split <;> split <;> linarith

/-- Invariant specification of the best-candidate loop: relative to the
carried state `(bs, best)`, the result is either the carried `best` (when
no eligible candidate in `gs` strictly beats `bs`) or the first candidate
of `gs` attaining the strict maximum: every eligible candidate strictly
before it scores strictly less, every eligible candidate after it scores
no more. -/
theorem best_match_loop_aux (pr fr : String → String → ℚ) (sk ht aw : String) :
    ∀ (gs : List (String × KalshiGame)) (bs : ℚ) (best : Option (String × CandidateEval)),
    (match best_match_loop pr fr sk ht aw gs bs best with
     | none => best = none ∧ ∀ c ∈ gs, is_eligible pr fr sk ht aw c = true →
         cand_score pr fr sk ht aw c ≤ bs
     | some res =>
         (best = some res ∧ ∀ c ∈ gs, is_eligible pr fr sk ht aw c = true →
            cand_score pr fr sk ht aw c ≤ bs) ∨
         (∃ l₁ c l₂, gs = l₁ ++ c :: l₂ ∧ res = (c.1, eval_candidate pr fr sk ht aw c) ∧
            is_eligible pr fr sk ht aw c = true ∧ bs < cand_score pr fr sk ht aw c ∧
            (∀ c' ∈ l₁, is_eligible pr fr sk ht aw c' = true →
              cand_score pr fr sk ht aw c' < cand_score pr fr sk ht aw c) ∧
            (∀ c' ∈ l₂, is_eligible pr fr sk ht aw c' = true →
              cand_score pr fr sk ht aw c' ≤ cand_score pr fr sk ht aw c))) := by
  intro gs
  induction gs with
  | nil =>
    intro bs best
    cases best with
    | none => exact ⟨rfl, fun c hc => absurd hc (List.not_mem_nil c)⟩
    | some b => exact Or.inl ⟨rfl, fun c hc => absurd hc (List.not_mem_nil c)⟩
  | cons g gs ih =>
    intro bs best
    simp only [best_match_loop]
    by_cases hcond : ((eval_candidate pr fr sk ht aw g).qualifies &&
        decide ((eval_candidate pr fr sk ht aw g).combined_score > bs)) = true
    · rw [if_pos hcond]
      by_cases hass : ((eval_candidate pr fr sk ht aw g).home_market.isSome ||
          (eval_candidate pr fr sk ht aw g).away_market.isSome) = true
      · rw [if_pos hass]
        have helig : is_eligible pr fr sk ht aw g = true := by
          unfold is_eligible
          simp only [Bool.and_eq_true] at hcond ⊢
          exact ⟨hcond.1, hass⟩
        have hgt : bs < cand_score pr fr sk ht aw g := by
          simp only [Bool.and_eq_true, decide_eq_true_eq] at hcond
          exact hcond.2
        have H := ih (eval_candidate pr fr sk ht aw g).combined_score
          (some (g.1, eval_candidate pr fr sk ht aw g))
        cases hres : best_match_loop pr fr sk ht aw gs
            (eval_candidate pr fr sk ht aw g).combined_score
            (some (g.1, eval_candidate pr fr sk ht aw g)) with
        | none =>
          rw [hres] at H
          exact Option.noConfusion H.1
        | some res =>
          rw [hres] at H
          rcases H with ⟨hbest, hall⟩ | ⟨l₁, c, l₂, hsplit, hres2, helig2, hlt2, hpre, hpost⟩
          · right
            refine ⟨[], g, gs, rfl, (Option.some.inj hbest).symm, helig, hgt,
              fun c' hc' => absurd hc' (List.not_mem_nil c'), ?_⟩
            intro c' hc' he'
            exact hall c' hc' he'
          · right
            refine ⟨g :: l₁, c, l₂, by rw [hsplit]; rfl, hres2, helig2, lt_trans hgt hlt2, ?_, hpost⟩
            intro c' hc' he'
            rcases List.mem_cons.mp hc' with rfl | hc''
            · exact hlt2
            · exact hpre c' hc'' he'
      · rw [if_neg hass]
        have hgbound : is_eligible pr fr sk ht aw g = true →
            cand_score pr fr sk ht aw g ≤ bs := by
          intro he
          exfalso
          unfold is_eligible at he
          simp only [Bool.and_eq_true] at he
          exact hass he.2
        have H := ih bs best
        cases hres : best_match_loop pr fr sk ht aw gs bs best with
        | none =>
          rw [hres] at H
          refine ⟨H.1, ?_⟩
          intro c hc he
          rcases List.mem_cons.mp hc with rfl | hc'
          · exact hgbound he
          · exact H.2 c hc' he
        | some res =>
          rw [hres] at H
          rcases H with ⟨hbest, hall⟩ | ⟨l₁, c, l₂, hsplit, hres2, helig2, hlt2, hpre, hpost⟩
          · left
            refine ⟨hbest, ?_⟩
            intro c hc he
            rcases List.mem_cons.mp hc with rfl | hc'
            · exact hgbound he
            · exact hall c hc' he
          · right
            refine ⟨g :: l₁, c, l₂, by rw [hsplit]; rfl, hres2, helig2, hlt2, ?_, hpost⟩
            intro c' hc' he'
            rcases List.mem_cons.mp hc' with rfl | hc''
            · exact lt_of_le_of_lt (hgbound he') hlt2
            · exact hpre c' hc'' he'
    · rw [if_neg hcond]
      have hgbound : is_eligible pr fr sk ht aw g = true →
          cand_score pr fr sk ht aw g ≤ bs := by
        intro he
        unfold is_eligible at he
        simp only [Bool.and_eq_true] at he
        by_contra hgt
        push_neg at hgt
        apply hcond
        simp only [Bool.and_eq_true, decide_eq_true_eq]
        exact ⟨he.1, hgt⟩
      have H := ih bs best
      cases hres : best_match_loop pr fr sk ht aw gs bs best with
      | none =>
        rw [hres] at H
        refine ⟨H.1, ?_⟩
        intro c hc he
        rcases List.mem_cons.mp hc with rfl | hc'
        · exact hgbound he
        · exact H.2 c hc' he
      | some res =>
        rw [hres] at H
        rcases H with ⟨hbest, hall⟩ | ⟨l₁, c, l₂, hsplit, hres2, helig2, hlt2, hpre, hpost⟩
        · left
          refine ⟨hbest, ?_⟩
          intro c hc he
          rcases List.mem_cons.mp hc with rfl | hc'
          · exact hgbound he
          · exact hall c hc' he
        · right
          refine ⟨g :: l₁, c, l₂, by rw [hsplit]; rfl, hres2, helig2, hlt2, ?_, hpost⟩
          intro c' hc' he'
          rcases List.mem_cons.mp hc' with rfl | hc''
          · exact lt_of_le_of_lt (hgbound he') hlt2
          · exact hpre c' hc'' he'

/-- The matcher's per-event `for` loop (fold with conditional append)
equals a `filterMap`. -/
theorem matcher_fold_eq (pr fr : String → String → ℚ)
    (gs : List (String × KalshiGame)) :
    ∀ (events : List VegasEvent) (acc : List MatchResult),
    events.foldl (fun ms e =>
      match best_match_loop pr fr e.sport_key e.home_team e.away_team gs 0 none with
      | some best => ms ++ [{ vegas_event := e, kalshi_home_market := best.2.home_market,
                              kalshi_away_market := best.2.away_market, game_id := best.1 }]
      | none => ms) acc
    = acc ++ events.filterMap (fun e =>
        (best_match_loop pr fr e.sport_key e.home_team e.away_team gs 0 none).map
          (fun best => { vegas_event := e, kalshi_home_market := best.2.home_market,
                         kalshi_away_market := best.2.away_market, game_id := best.1 })) := by
  intro events
  induction events with
  | nil =>
    intro acc
    simp
  | cons e es ih =>
    intro acc
    rw [List.foldl_cons, List.filterMap_cons]
    cases hb : best_match_loop pr fr e.sport_key e.home_team e.away_team gs 0 none with
    | none =>
      rw [ih]
      simp
    | some best =>
      rw [ih]
      simp

/-- C8 (amended): for every event, the matcher keeps at most one
candidate game: among the qualifying candidates that assign a listing to
at least one side ("eligible" candidates), it keeps the highest-scoring
one, resolving score ties in favor of the first-seen candidate in the
deterministic insertion order of listing groups; a qualifying candidate
with no assigned listing is passed over even when it scores highest; an
event with no eligible candidate is absent from the returned match list
rather than causing an error. Stated for arbitrary nonnegative fuzzy
scoring functions standing for the external `rapidfuzz`. -/
theorem C8_matcher_selection (pr fr : String → String → ℚ)
    (hpr : ∀ a b, 0 ≤ pr a b)
    (events : List VegasEvent) (markets : List KalshiMarket) :
    (EventMatcher.match_game_winner_markets pr fr events markets =
      events.filterMap (fun e =>
        (best_match_loop pr fr e.sport_key e.home_team e.away_team
            (group_kalshi_games markets) 0 none).map
          (fun best => { vegas_event := e, kalshi_home_market := best.2.home_market,
                         kalshi_away_market := best.2.away_market, game_id := best.1 }))) ∧
    ∀ e : VegasEvent,
      (match best_match_loop pr fr e.sport_key e.home_team e.away_team
          (group_kalshi_games markets) 0 none with
       | none =>
           ∀ c ∈ group_kalshi_games markets,
             is_eligible pr fr e.sport_key e.home_team e.away_team c = false
       | some best =>
           ∃ l₁ c l₂, group_kalshi_games markets = l₁ ++ c :: l₂ ∧
             best = (c.1, eval_candidate pr fr e.sport_key e.home_team e.away_team c) ∧
             is_eligible pr fr e.sport_key e.home_team e.away_team c = true ∧
             (∀ c' ∈ l₁, is_eligible pr fr e.sport_key e.home_team e.away_team c' = true →
               cand_score pr fr e.sport_key e.home_team e.away_team c' <
                 cand_score pr fr e.sport_key e.home_team e.away_team c) ∧
             (∀ c' ∈ l₂, is_eligible pr fr e.sport_key e.home_team e.away_team c' = true →
               cand_score pr fr e.sport_key e.home_team e.away_team c' ≤
                 cand_score pr fr e.sport_key e.home_team e.away_team c)) := by
  constructor
  · unfold EventMatcher.match_game_winner_markets
    exact matcher_fold_eq pr fr (group_kalshi_games markets) events []
  · intro e
    have H := best_match_loop_aux pr fr e.sport_key e.home_team e.away_team
      (group_kalshi_games markets) 0 none
    cases hres : best_match_loop pr fr e.sport_key e.home_team e.away_team
        (group_kalshi_games markets) 0 none with
    | none =>
      rw [hres] at H
      intro c hc
      by_cases he : is_eligible pr fr e.sport_key e.home_team e.away_team c = true
      · exact absurd (H.2 c hc he)
          (not_le.mpr (elig_score_pos pr fr hpr e.sport_key e.home_team e.away_team c he))
      · exact Bool.eq_false_iff.mpr he
    | some res =>
      rw [hres] at H
      rcases H with ⟨hbest, _⟩ | ⟨l₁, c, l₂, hsplit, hres2, helig2, _, hpre, hpost⟩
      · exact Option.noConfusion hbest
      · exact ⟨l₁, c, l₂, hsplit, hres2, helig2, hpre, hpost⟩

set_option maxRecDepth 4000 in
/-- Counterexample to C8 as stated: both candidate games qualify (both
team names are contained in both titles) and their combined scores tie
for **any** scoring function (the titles are identical), with "g1"
first-seen in the insertion order of listing groups — yet the matcher
keeps "g2", because "g1" assigns no listing: a score tie is **not**
resolved in favor of the first-seen qualifying candidate, and the event
with its best qualifying game unassigned is not dropped. -/
theorem C8_counterexample :
    group_kalshi_games [c8_m1, c8_m2] = [c8_cand1, c8_cand2] ∧
    (eval_candidate zero_score zero_score c8_event.sport_key c8_event.home_team
      c8_event.away_team c8_cand1).qualifies = true ∧
    (eval_candidate zero_score zero_score c8_event.sport_key c8_event.home_team
      c8_event.away_team c8_cand2).qualifies = true ∧
    cand_score zero_score zero_score c8_event.sport_key c8_event.home_team
        c8_event.away_team c8_cand1 =
      cand_score zero_score zero_score c8_event.sport_key c8_event.home_team
        c8_event.away_team c8_cand2 ∧
    (EventMatcher.match_game_winner_markets zero_score zero_score [c8_event]
      [c8_m1, c8_m2]).map (fun m => m.game_id) = ["g2"] := by
  refine ⟨by decide, ?_, ?_, ?_, ?_⟩
  · with_unfolding_all decide
  · with_unfolding_all decide
  · with_unfolding_all decide
  · with_unfolding_all decide

/-- Witness for C8 (amended): the all-zero scorer is nonnegative and on
the empty snapshot the matcher returns the empty list. -/
theorem C8_matcher_selection_witness :
    (∀ a b : String, 0 ≤ zero_score a b) ∧
    EventMatcher.match_game_winner_markets zero_score zero_score [] [] = [] :=
  ⟨fun _ _ => le_refl 0, by
    have h := (C8_matcher_selection zero_score zero_score (fun _ _ => le_refl 0) [] []).1
    simpa using h⟩

end OddsEdge
